import Mathlib

/-!
# GitSwitch — verification of the Configuration Mutation & Recovery Core

A shallow embedding of the GitSwitch main-process services:

* `crypto` — `sha256` / `generateChecksum` (`src/main/utils/crypto.ts`),
* `auditService` — detail sanitization and entry checksums (`audit.service.ts`),
* `secureStore` / `profileService` — profile persistence and default election
  (`secure-store.service.ts`, `profile.service.ts`),
* `backupService` — backup-before-write registry (`backup.service.ts`),
* `gitService` — remote-URL classification and config mutation
  (`git.service.ts`),
* the `REPO_UNBIND` IPC handler (`repos.ipc.ts`).

Machine-level integers are modelled as `Nat` with explicit `% 2^32` where the
source relies on 32-bit wrap-around (SHA-256); the filesystem is a partial map
from path strings to content strings; external effects (OS keychain, the git
binary, uuid generation, wall-clock time) are modelled by explicit state
(counters for fresh ids, an integer clock) or by recording the written value.
-/

namespace GitSwitch

/-! ## String helpers -/

/-- Substring containment on character lists: does `needle` occur
contiguously inside `hay`?  Models JS `String.prototype.includes`. -/
def listContainsSub (hay needle : List Char) : Bool :=
  needle.isPrefixOf hay ||
    match hay with
    | [] => false
    | _ :: t => listContainsSub t needle

/-- JS `s.includes(sub)`. -/
def strContains (s sub : String) : Bool :=
  listContainsSub s.toList sub.toList

/-- Lower-case one character (ASCII range; the audit keys and profile labels
this is applied to are ASCII). -/
def lowerChar (c : Char) : Char :=
  if 65 ≤ c.toNat ∧ c.toNat ≤ 90 then Char.ofNat (c.toNat + 32) else c

/-- JS `s.toLowerCase()` over the characters of `s`. -/
def strLower (s : String) : String :=
  String.mk (s.toList.map lowerChar)

/-- Lexicographic comparison of character lists by code point (the JS
default sort order on the ASCII keys this is applied to). -/
def charListLe : List Char → List Char → Bool
  | [], _ => true
  | _ :: _, [] => false
  | a :: as, b :: bs =>
    if a.toNat < b.toNat then true
    else if b.toNat < a.toNat then false
    else charListLe as bs

/-- String comparison used for key sorting. -/
def strLe (a b : String) : Bool :=
  charListLe a.toList b.toList

/-- UTF-8 encoding of one character (code points below `0x110000`). -/
def utf8EncodeCharNat (n : Nat) : List Nat :=
  if n < 0x80 then [n]
  else if n < 0x800 then [0xC0 ||| (n >>> 6), 0x80 ||| (n &&& 0x3F)]
  else if n < 0x10000 then
    [0xE0 ||| (n >>> 12), 0x80 ||| ((n >>> 6) &&& 0x3F), 0x80 ||| (n &&& 0x3F)]
  else
    [0xF0 ||| (n >>> 18), 0x80 ||| ((n >>> 12) &&& 0x3F),
     0x80 ||| ((n >>> 6) &&& 0x3F), 0x80 ||| (n &&& 0x3F)]

/-- UTF-8 bytes of a string. -/
def utf8Bytes (s : String) : List Nat :=
  (s.toList.map (fun c => utf8EncodeCharNat c.toNat)).flatten

/-- Split a character list at the first occurrence of `c`; the separator is
dropped.  Returns `none` when `c` does not occur. -/
def breakAtChar (c : Char) : List Char → Option (List Char × List Char)
  | [] => none
  | x :: xs =>
    if x = c then some ([], xs)
    else (breakAtChar c xs).map (fun p => (x :: p.1, p.2))

/-- First `some` produced by `f` over the list, scanning left to right. -/
def firstSome {α β : Type} (f : α → Option β) : List α → Option β
  | [] => none
  | x :: xs =>
    match f x with
    | some r => some r
    | none => firstSome f xs

/-! ## SHA-256 (`crypto.createHash('sha256')` of `src/main/utils/crypto.ts`)

The TypeScript `sha256` delegates to Node's `crypto` module; the function is
reproduced here bit-for-bit over the UTF-8 bytes of the input, with 32-bit
words as `Nat` reduced modulo `2^32`. -/

namespace SHA256

/-- Right rotation of a 32-bit word by `n`. -/
def rotr (n x : Nat) : Nat :=
  ((x >>> n) ||| (x <<< (32 - n))) % 4294967296

def smallSigma0 (x : Nat) : Nat := rotr 7 x ^^^ rotr 18 x ^^^ (x >>> 3)
def smallSigma1 (x : Nat) : Nat := rotr 17 x ^^^ rotr 19 x ^^^ (x >>> 10)
def bigSigma0 (x : Nat) : Nat := rotr 2 x ^^^ rotr 13 x ^^^ rotr 22 x
def bigSigma1 (x : Nat) : Nat := rotr 6 x ^^^ rotr 11 x ^^^ rotr 25 x

/-- The 64 SHA-256 round constants (FIPS 180-4, in decimal). -/
def K : List Nat :=
  [1116352408, 1899447441, 3049323471, 3921009573, 961987163, 1508970993,
   2453635748, 2870763221, 3624381080, 310598401, 607225278, 1426881987,
   1925078388, 2162078206, 2614888103, 3248222580, 3835390401, 4022224774,
   264347078, 604807628, 770255983, 1249150122, 1555081692, 1996064986,
   2554220882, 2821834349, 2952996808, 3210313671, 3336571891, 3584528711,
   113926993, 338241895, 666307205, 773529912, 1294757372, 1396182291,
   1695183700, 1986661051, 2177026350, 2456956037, 2730485921, 2820302411,
   3259730800, 3345764771, 3516065817, 3600352804, 4094571909, 275423344,
   430227734, 506948616, 659060556, 883997877, 958139571, 1322822218,
   1537002063, 1747873779, 1955562222, 2024104815, 2227730452, 2361852424,
   2428436474, 2756734187, 3204031479, 3329325298]

/-- Initial hash value (FIPS 180-4, in decimal). -/
def H0 : List Nat :=
  [1779033703, 3144134277, 1013904242, 2773480762,
   1359893119, 2600822924, 528734635, 1541459225]

/-- Append the `1` bit, zero padding and the 64-bit big-endian bit length. -/
def pad (msg : List Nat) : List Nat :=
  let len := msg.length
  let zeros := (119 - len % 64) % 64
  let bitLen := len * 8
  msg ++ [0x80] ++ List.replicate zeros 0 ++
    [(bitLen >>> 56) % 256, (bitLen >>> 48) % 256, (bitLen >>> 40) % 256,
     (bitLen >>> 32) % 256, (bitLen >>> 24) % 256, (bitLen >>> 16) % 256,
     (bitLen >>> 8) % 256, bitLen % 256]

/-- Group bytes into big-endian 32-bit words. -/
def toWords : List Nat → List Nat
  | b0 :: b1 :: b2 :: b3 :: rest =>
    (((b0 * 256 + b1) * 256 + b2) * 256 + b3) :: toWords rest
  | _ => []

/-- Split a word list into 16-word blocks. -/
def toBlocks : List Nat → List (List Nat)
  | a0 :: a1 :: a2 :: a3 :: a4 :: a5 :: a6 :: a7 ::
    a8 :: a9 :: a10 :: a11 :: a12 :: a13 :: a14 :: a15 :: rest =>
    [a0, a1, a2, a3, a4, a5, a6, a7, a8, a9, a10, a11, a12, a13, a14, a15] ::
      toBlocks rest
  | _ => []

/-- Extend the 16 block words to the 64-entry message schedule. -/
def schedule (block : List Nat) : Array Nat :=
  (List.range 48).foldl
    (fun w i =>
      let t := i + 16
      w.push ((smallSigma1 (w.getD (t - 2) 0) + w.getD (t - 7) 0 +
               smallSigma0 (w.getD (t - 15) 0) + w.getD (t - 16) 0) % 4294967296))
    block.toArray

/-- One compression round. -/
def round (state : List Nat) (kw : Nat) : List Nat :=
  match state with
  | [a, b, c, d, e, f, g, h] =>
    let t1 := (h + bigSigma1 e + ((e &&& f) ^^^ ((4294967295 - e) &&& g)) + kw) % 4294967296
    let t2 := (bigSigma0 a + ((a &&& b) ^^^ (a &&& c) ^^^ (b &&& c))) % 4294967296
    [(t1 + t2) % 4294967296, a, b, c, (d + t1) % 4294967296, e, f, g]
  | s => s

/-- Compress a single block into the running hash. -/
def compress (h : List Nat) (block : List Nat) : List Nat :=
  let w := schedule block
  let kw := (List.range 64).map (fun i => (K.getD i 0 + w.getD i 0) % 4294967296)
  let out := kw.foldl round h
  (h.zip out).map (fun p => (p.1 + p.2) % 4294967296)

/-- Hex rendering of one 32-bit word (8 lowercase hex digits). -/
def wordHex (x : Nat) : String :=
  let digit := fun (n : Nat) =>
    if n < 10 then Char.ofNat (48 + n) else Char.ofNat (87 + n)
  String.mk ((List.range 8).map (fun i => digit ((x >>> ((7 - i) * 4)) % 16)))

/-- SHA-256 of a byte list, as a lowercase hex string. -/
def bytesHash (msg : List Nat) : String :=
  let blocks := toBlocks (toWords (pad msg))
  let final := blocks.foldl compress H0
  String.join (final.map wordHex)

end SHA256

/-! ## `crypto.ts` -/

namespace crypto

/-- Model of `sha256(input)` from `src/main/utils/crypto.ts`: SHA-256 of the
UTF-8 bytes of `input`, hex-encoded. -/
def sha256 (input : String) : String :=
  SHA256.bytesHash (utf8Bytes input)

/-- The ten-entry profile color palette `PROFILE_COLORS`. -/
def PROFILE_COLORS : List String :=
  ["#238636", "#1f6feb", "#8957e5", "#f78166", "#d29922",
   "#3fb950", "#58a6ff", "#bc8cff", "#ff7b72", "#7ee787"]

/-- Model of `getProfileColor(index)`; the index branch (profile creation always
passes `existingProfiles.length`, so the random branch is never taken
there). -/
def getProfileColor (index : Nat) : String :=
  (PROFILE_COLORS.getD (index % PROFILE_COLORS.length) "")

end crypto

/-! ## JSON values and `JSON.stringify(data, replacerArray)`

The checksum code serializes with `JSON.stringify(data, Object.keys(data).sort())`.
Per ECMA-262, an array second argument is a property allowlist applied to
EVERY object encountered during serialization (not only the root, and not to
array elements), and object properties are emitted in allowlist order. -/

inductive JVal where
  | str (s : String)
  | num (n : Int)
  | bool (b : Bool)
  | null
  | arr (elems : List JVal)
  | obj (fields : List (String × JVal))

namespace Json

/-- Escape one character per `JSON.stringify` string quoting rules. -/
def escapeChar (c : Char) : String :=
  if c = '"' then "\\\""
  else if c = '\\' then "\\\\"
  else if c = '\n' then "\\n"
  else if c = '\r' then "\\r"
  else if c = '\t' then "\\t"
  else if c = (Char.ofNat 8) then "\\b"
  else if c = (Char.ofNat 12) then "\\f"
  else if c.toNat < 32 then
    "\\u00" ++ String.mk [(if c.toNat < 16 then '0' else '1'),
      (let d := c.toNat % 16
       if d < 10 then Char.ofNat (48 + d) else Char.ofNat (87 + d))]
  else String.mk [c]

/-- Quote a string as a JSON string literal. -/
def quote (s : String) : String :=
  "\"" ++ String.join (s.toList.map escapeChar) ++ "\""

/-- Insert a string into a sorted list (JS default sort order on our ASCII
keys agrees with the `String` order used here). -/
def insertSorted (s : String) : List String → List String
  | [] => [s]
  | t :: ts => if strLe s t then s :: t :: ts else t :: insertSorted s ts

/-- Sort a list of keys, as `Object.keys(data).sort()` does. -/
def sortKeys (l : List String) : List String :=
  l.foldr insertSorted []

/-- Association-list lookup by key, first match (JS object keys are unique). -/
def lookupField (fields : List (String × String)) (k : String) : Option String :=
  match fields with
  | [] => none
  | (k', v) :: rest => if k' = k then some v else lookupField rest k

mutual

/-- Serialize a JSON value under the property allowlist `allow`:
the allowlist filters (and orders) the fields of every object at every
depth, while array elements are serialized unconditionally. -/
def serialize (allow : List String) : JVal → String
  | .str s => quote s
  | .num n => toString n
  | .bool b => if b then "true" else "false"
  | .null => "null"
  | .arr elems => "[" ++ String.intercalate "," (serializeElems allow elems) ++ "]"
  | .obj fields =>
    "\x7b" ++
      String.intercalate ","
        ((allow.filterMap (fun k =>
          (lookupField (serializeFields allow fields) k).map
            (fun sv => quote k ++ ":" ++ sv)))) ++ "\x7d"

/-- Serialize every element of an array. -/
def serializeElems (allow : List String) : List JVal → List String
  | [] => []
  | v :: rest => serialize allow v :: serializeElems allow rest

/-- Serialize every field value of an object, keeping the keys. -/
def serializeFields (allow : List String) : List (String × JVal) → List (String × String)
  | [] => []
  | (k, v) :: rest => (k, serialize allow v) :: serializeFields allow rest

end

end Json

namespace crypto

/-- Deterministic serialization used by `generateChecksum`:
`JSON.stringify(data, Object.keys(data).sort())`.  The root object may carry
absent (`undefined`) optional properties, modelled as `none`: `Object.keys`
still lists them (so they enter the allowlist) but `JSON.stringify` omits
them from the output. -/
def serializeSorted (data : List (String × Option JVal)) : String :=
  let allow := Json.sortKeys (data.map Prod.fst)
  let defined := data.filterMap (fun p => p.2.map (fun v => (p.1, v)))
  "\x7b" ++
    String.intercalate ","
      (allow.filterMap (fun k =>
        (Json.lookupField (Json.serializeFields allow defined) k).map
          (fun sv => Json.quote k ++ ":" ++ sv))) ++ "\x7d"

/-- Model of `generateChecksum(data)` from `src/main/utils/crypto.ts`:
SHA-256 of the sorted-allowlist serialization. -/
def generateChecksum (data : List (String × Option JVal)) : String :=
  sha256 (serializeSorted data)

/-- Model of `verifyChecksum(data, checksum)`. -/
def verifyChecksum (data : List (String × Option JVal)) (checksum : String) : Bool :=
  generateChecksum data == checksum

end crypto

/-! ## Audit service (`audit.service.ts`) -/

/-- An audit log entry (`AuditLogEntry` of the shared types); the `details`
map is a JSON object, `category` is one of the category strings. -/
structure AuditLogEntry where
  id : String
  timestamp : String
  category : String
  action : String
  details : List (String × JVal)
  affectedPaths : Option (List String)
  reversible : Bool
  backupId : Option String
  checksum : String

namespace auditService

/-- Does the lower-cased key name contain one of the secret-like patterns? -/
def isSensitiveKey (k : String) : Bool :=
  let lowerKey := strLower k
  strContains lowerKey "password" || strContains lowerKey "token" ||
    strContains lowerKey "secret" || strContains lowerKey "private"

/-- Model of `sanitizeDetails(details)`: redact the value of any key whose
lower-cased name contains a secret-like pattern; recurse into values that
are non-null, non-array objects; copy everything else unchanged. -/
def sanitizeDetails : List (String × JVal) → List (String × JVal)
  | [] => []
  | (k, v) :: rest =>
    (k,
      if isSensitiveKey k then JVal.str "[REDACTED]"
      else
        match v with
        | JVal.obj fields => JVal.obj (sanitizeDetails fields)
        | other => other) :: sanitizeDetails rest

/-- The checksum payload of an entry: every field except `checksum`, in the
insertion order of the TypeScript object literal (the order is irrelevant
after key sorting; the key SET is what matters).  Absent optional fields
are `undefined` properties. -/
def entryPayload (e : AuditLogEntry) : List (String × Option JVal) :=
  [("id", some (JVal.str e.id)),
   ("timestamp", some (JVal.str e.timestamp)),
   ("category", some (JVal.str e.category)),
   ("action", some (JVal.str e.action)),
   ("details", some (JVal.obj e.details)),
   ("affectedPaths", e.affectedPaths.map (fun ps => JVal.arr (ps.map JVal.str))),
   ("reversible", some (JVal.bool e.reversible)),
   ("backupId", e.backupId.map JVal.str)]

/-- Model of `auditService.log(category, action, details, options)`: build the
entry with sanitized details, then attach `generateChecksum` over all other
fields.  `id` and `timestamp` come from uuid/clock and are passed in. -/
def log (id timestamp category action : String)
    (details : List (String × JVal))
    (affectedPaths : Option (List String))
    (reversible : Option Bool) (backupId : Option String) : AuditLogEntry :=
  let base : AuditLogEntry :=
    { id, timestamp, category, action,
      details := sanitizeDetails details,
      affectedPaths,
      reversible := reversible.getD true,
      backupId,
      checksum := "" }
  { base with checksum := crypto.generateChecksum (entryPayload base) }

/-- Model of `auditService.verifyEntry(entry)`: recompute the checksum over
every field except `checksum` and compare. -/
def verifyEntry (e : AuditLogEntry) : Bool :=
  crypto.generateChecksum (entryPayload e) == e.checksum

end auditService

/-! ## Profiles (`secure-store.service.ts`, `profile.service.ts`)

Profile ids are uuids in the source; freshness is modelled with a counter
(`nextId`) carried next to the stored list.  ISO timestamps are opaque
strings passed in by the caller. -/

inductive GitProvider where
  | github | gitlab | bitbucket | azure | custom
deriving DecidableEq, Repr

inductive AuthType where
  | ssh | https
deriving DecidableEq, Repr

/-- A stored Git identity (`Profile` of the shared types). -/
structure Profile where
  id : Nat
  label : String
  provider : GitProvider
  username : String
  email : String
  authType : AuthType
  sshKeyPath : Option String
  sshHostAlias : Option String
  tokenId : Option Nat
  isDefault : Bool
  color : String
  createdAt : String
  updatedAt : String
deriving DecidableEq, Repr

/-- Input of `profileService.create` (`CreateProfileInput`). -/
structure CreateProfileInput where
  label : String
  provider : GitProvider
  username : String
  email : String
  authType : AuthType
  sshKeyPath : Option String
  generateNewKey : Bool
  token : Option String
  isDefault : Option Bool
  color : Option String
deriving DecidableEq, Repr

/-- Input of `profileService.update` (`UpdateProfileInput`). -/
structure UpdateProfileInput where
  id : Nat
  label : Option String
  provider : Option GitProvider
  username : Option String
  email : Option String
  authType : Option AuthType
  sshKeyPath : Option String
  token : Option String
  isDefault : Option Bool
  color : Option String
deriving DecidableEq, Repr

namespace secureStore

/-- Model of `secureStore.saveProfile(profile)`: upsert by id — replace the
first stored profile with the same id, or push at the end. -/
def saveProfile : List Profile → Profile → List Profile
  | [], q => [q]
  | p :: ps, q => if p.id == q.id then q :: ps else p :: saveProfile ps q

/-- Model of `secureStore.deleteProfile(id)` on the stored list. -/
def deleteProfile (profiles : List Profile) (id : Nat) : List Profile :=
  profiles.filter (fun p => !(p.id == id))

/-- Model of `secureStore.setDefaultProfile(id)`: one pass setting
`isDefault` to `p.id === id` on every stored profile. -/
def setDefaultProfile (profiles : List Profile) (id : Nat) : List Profile :=
  profiles.map (fun p => { p with isDefault := p.id == id })

/-- Model of `secureStore.getProfile(id)`. -/
def getProfile (profiles : List Profile) (id : Nat) : Option Profile :=
  profiles.find? (fun p => p.id == id)

end secureStore

/-- The profile portion of the encrypted store, together with the fresh-id
counter standing in for uuid generation. -/
structure ProfileStore where
  profiles : List Profile
  nextId : Nat
deriving DecidableEq, Repr

namespace profileService

/-- Model of `profileService.getDefault()`:
`profiles.find(p => p.isDefault) || profiles[0]`. -/
def getDefault (profiles : List Profile) : Option Profile :=
  match profiles.find? (fun p => p.isDefault) with
  | some p => some p
  | none => profiles.head?

/-- Save a list of profiles one at a time
(the `for (const p of profiles) secureStore.saveProfile(p)` loops). -/
def saveAll (store : List Profile) (ps : List Profile) : List Profile :=
  ps.foldl secureStore.saveProfile store

/-- Modelled from the spec: `sshService.generateKey` (the `ssh.service.ts`
file is not under `src/`) creates a new key pair at a deterministic
collision-avoided path in the SSH directory; only the resulting private-key
path matters to the profile record. -/
def generatedKeyPath (label : String) : String :=
  "~/.ssh/id_ed25519_" ++ label

/-- The host-alias string built in `create`:
provider name + `-` + lower-cased label stripped to `[a-z0-9]`. -/
def hostAlias (provider : GitProvider) (label : String) : String :=
  let providerName :=
    match provider with
    | .github => "github" | .gitlab => "gitlab" | .bitbucket => "bitbucket"
    | .azure => "azure" | .custom => "custom"
  providerName ++ "-" ++
    String.mk ((strLower label).toList.filter
      (fun c => ('a' ≤ c ∧ c ≤ 'z') ∨ ('0' ≤ c ∧ c ≤ '9')))

/-- JS truthiness of `input.color || defaultColor`: an absent or empty
string falls back. -/
def colorOrDefault (c : Option String) (d : String) : String :=
  match c with
  | some s => if s = "" then d else s
  | none => d

/-- Model of `profileService.create(input)` at clock string `now`.  SSH key
generation and keychain writes are external effects; the fields they feed
(`sshKeyPath`, `sshHostAlias`, `tokenId`) are reproduced.  The fresh uuid is
`nextId`. -/
def create (st : ProfileStore) (input : CreateProfileInput) (now : String) :
    ProfileStore × Profile :=
  let genKey := input.authType == AuthType.ssh && input.generateNewKey
  let sshKeyPath := if genKey then some (generatedKeyPath input.label) else input.sshKeyPath
  let sshHostAlias := if genKey then some (hostAlias input.provider input.label) else none
  let id := st.nextId
  let tokenId :=
    if input.authType == AuthType.https && input.token.isSome then some id else none
  let existingProfiles := st.profiles
  let profile : Profile :=
    { id, label := input.label, provider := input.provider,
      username := input.username, email := input.email,
      authType := input.authType, sshKeyPath, sshHostAlias, tokenId,
      isDefault := input.isDefault.getD false || existingProfiles.isEmpty,
      color := colorOrDefault input.color (crypto.getProfileColor existingProfiles.length),
      createdAt := now, updatedAt := now }
  let store1 :=
    if profile.isDefault then
      saveAll st.profiles (st.profiles.map (fun p => { p with isDefault := false }))
    else st.profiles
  ({ profiles := secureStore.saveProfile store1 profile, nextId := st.nextId + 1 },
   profile)

/-- Model of `profileService.update(input)` at clock string `now`; returns
the updated profile, or `none` when the id is unknown. -/
def update (st : ProfileStore) (input : UpdateProfileInput) (now : String) :
    ProfileStore × Option Profile :=
  match secureStore.getProfile st.profiles input.id with
  | none => (st, none)
  | some existing =>
    let store1 :=
      if input.isDefault == some true && !existing.isDefault then
        saveAll st.profiles
          (st.profiles.map (fun p => { p with isDefault := p.id == input.id }))
      else st.profiles
    let updated : Profile :=
      { existing with
        label := input.label.getD existing.label,
        provider := input.provider.getD existing.provider,
        username := input.username.getD existing.username,
        email := input.email.getD existing.email,
        authType := input.authType.getD existing.authType,
        sshKeyPath :=
          match input.sshKeyPath with
          | some k => some k
          | none => existing.sshKeyPath,
        isDefault := input.isDefault.getD existing.isDefault,
        color := input.color.getD existing.color,
        updatedAt := now }
    ({ st with profiles := secureStore.saveProfile store1 updated }, some updated)

/-- Model of `profileService.setDefault(id)`: check the id exists, then one
`secureStore.setDefaultProfile` pass. -/
def setDefault (st : ProfileStore) (id : Nat) : ProfileStore × Bool :=
  match secureStore.getProfile st.profiles id with
  | none => (st, false)
  | some _ => ({ st with profiles := secureStore.setDefaultProfile st.profiles id }, true)

/-- Model of `profileService.delete(id)`: remove the profile (token/SSH
cleanup are external); if it was the default and profiles remain, make the
first remaining profile the default. -/
def delete (st : ProfileStore) (id : Nat) : ProfileStore × Bool :=
  match secureStore.getProfile st.profiles id with
  | none => (st, false)
  | some profile =>
    let remaining := secureStore.deleteProfile st.profiles id
    let st1 : ProfileStore := { st with profiles := remaining }
    if profile.isDefault then
      match remaining.head? with
      | some first => ((setDefault st1 first.id).1, true)
      | none => (st1, true)
    else (st1, true)

end profileService

/-- One orchestrator-level profile operation. -/
inductive ProfileOp where
  | create (input : CreateProfileInput) (now : String)
  | update (input : UpdateProfileInput) (now : String)
  | delete (id : Nat)
  | setDefault (id : Nat)
deriving DecidableEq, Repr

/-- Apply one operation to the store. -/
def applyOp (st : ProfileStore) : ProfileOp → ProfileStore
  | .create input now => (profileService.create st input now).1
  | .update input now => (profileService.update st input now).1
  | .delete id => (profileService.delete st id).1
  | .setDefault id => (profileService.setDefault st id).1

/-- Run a sequence of operations from the empty store. -/
def runOps (ops : List ProfileOp) : ProfileStore :=
  ops.foldl applyOp { profiles := [], nextId := 0 }

/-- Number of stored profiles flagged as default. -/
def defaultCount (profiles : List Profile) : Nat :=
  profiles.countP (fun p => p.isDefault)

/-- The stored profile ids, in order. -/
def profileIds (profiles : List Profile) : List Nat :=
  profiles.map (fun p => p.id)

/-- Well-formedness of the profile store: ids are below the uuid counter
and duplicate-free (uuids are fresh), and at most one profile is default. -/
def StoreInv (st : ProfileStore) : Prop :=
  (∀ i ∈ profileIds st.profiles, i < st.nextId) ∧
    (profileIds st.profiles).Nodup ∧ defaultCount st.profiles ≤ 1

/-! ## Filesystem model and backup engine (`backup.service.ts`) -/

/-- A filesystem is a partial map from paths to text content. -/
def FS : Type := String → Option String

/-- Write (create or overwrite) a file. -/
def fsWrite (fs : FS) (p c : String) : FS :=
  fun q => if q = p then some c else fs q

/-- Unlink a file. -/
def fsRemove (fs : FS) (p : String) : FS :=
  fun q => if q = p then none else fs q

/-- Backup categories (`BackupType` of the shared types). -/
inductive BackupType where
  | sshConfig | gitConfigGlobal | gitConfigLocal | sshKey
deriving DecidableEq, Repr

/-- One registry record (`BackupInfo` of the shared types); uuids are
modelled by `Nat` and ISO timestamps by an integer clock in days. -/
structure BackupInfo where
  id : Nat
  timestamp : Int
  type : BackupType
  originalPath : String
  backupPath : String
  originalHash : String
  reason : String
  restored : Bool
deriving DecidableEq, Repr

/-- The backup engine's state: the filesystem, the persisted registry, the
fresh-uuid counter and the clock (days). -/
structure BackupState where
  fs : FS
  registry : List BackupInfo
  nextId : Nat
  now : Int

namespace backupService

/-- Application backup directory (`getBackupDir()`; environment-dependent in
the source, a constant here). -/
def getBackupDir : String := "/appdata/GitSwitch/backups"

/-- Collect the segment after the last `/`. -/
def lastSegment : List Char → List Char → List Char
  | [], cur => cur
  | c :: rest, cur =>
    if c = '/' then lastSegment rest [] else lastSegment rest (cur ++ [c])

/-- Last path segment, as `path.basename` on the `/`-separated paths this
system builds. -/
def baseName (p : String) : String :=
  String.mk (lastSegment p.toList [])

/-- The timestamped backup file name:
`backupDir/baseName_timestamp_idPrefix`. -/
def backupFileName (originalPath : String) (now : Int) (id : Nat) : String :=
  getBackupDir ++ "/" ++ baseName originalPath ++ "_" ++ toString now ++ "_" ++ toString id

/-- The registry record `createBackup` appends for a file with this
content. -/
def backupRecord (st : BackupState) (originalPath : String) (type : BackupType)
    (reason : String) (content : String) : BackupInfo :=
  { id := st.nextId, timestamp := st.now, type, originalPath,
    backupPath := backupFileName originalPath st.now st.nextId,
    originalHash := crypto.sha256 content, reason, restored := false }

/-- Model of `backupService.createBackup(originalPath, type, reason)`:
nothing to protect when the file is absent (returns `null`); otherwise read
the content, hash it, write the copy, append the record to the registry. -/
def createBackup (st : BackupState) (originalPath : String) (type : BackupType)
    (reason : String) : BackupState × Option BackupInfo :=
  match st.fs originalPath with
  | none => (st, none)
  | some content =>
    let backup : BackupInfo :=
      { id := st.nextId, timestamp := st.now, type, originalPath,
        backupPath := backupFileName originalPath st.now st.nextId,
        originalHash := crypto.sha256 content, reason, restored := false }
    ({ st with
        fs := fsWrite st.fs backup.backupPath content,
        registry := st.registry ++ [backup],
        nextId := st.nextId + 1 },
     some backup)

/-- Set `restored := true` on the first registry record with this id (the
source mutates the object returned by `find`). -/
def markRestored : List BackupInfo → Nat → List BackupInfo
  | [], _ => []
  | b :: bs, i =>
    if b.id == i then { b with restored := true } :: bs else b :: markRestored bs i

/-- Model of `backupService.restoreBackup(backupId)`: fail (`false`) when the
record is unknown or the backup file is missing; re-hash the backup content
and compare with `originalHash`, but a mismatch only logs a warning;
overwrite the original path and mark the record restored. -/
def restoreBackup (st : BackupState) (backupId : Nat) : BackupState × Bool :=
  match st.registry.find? (fun b => b.id == backupId) with
  | none => (st, false)
  | some backup =>
    match st.fs backup.backupPath with
    | none => (st, false)
    | some content =>
      ({ st with
          fs := fsWrite st.fs backup.originalPath content,
          registry := markRestored st.registry backupId },
       true)

/-- Remove the first registry record with this id, returning it and the
remaining registry (`findIndex` + `splice`). -/
def removeFirst : List BackupInfo → Nat → Option (BackupInfo × List BackupInfo)
  | [], _ => none
  | b :: bs, i =>
    if b.id == i then some (b, bs)
    else (removeFirst bs i).map (fun p => (p.1, b :: p.2))

/-- Model of `backupService.deleteBackup(backupId)`: drop the registry record
and unlink the backup file when it exists. -/
def deleteBackup (st : BackupState) (backupId : Nat) : BackupState × Bool :=
  match removeFirst st.registry backupId with
  | none => (st, false)
  | some (backup, rest) =>
    ({ st with
        fs := if (st.fs backup.backupPath).isSome then fsRemove st.fs backup.backupPath
              else st.fs,
        registry := rest },
     true)

/-- One step of the cleanup loop: delete the backup with this id and count
the deletion when it succeeded. -/
def deleteStep (acc : BackupState × Nat) (i : Nat) : BackupState × Nat :=
  let r := deleteBackup acc.1 i
  (r.1, if r.2 then acc.2 + 1 else acc.2)

/-- Model of `backupService.cleanupOldBackups(retentionDays)`: collect the
ids of records strictly older than `now - retentionDays` that were never
restored, delete them one by one, and count the successful deletions. -/
def cleanupOldBackups (st : BackupState) (retentionDays : Int) : BackupState × Nat :=
  let cutoffDate := st.now - retentionDays
  let toDelete :=
    (st.registry.filter (fun b => decide (b.timestamp < cutoffDate) && !b.restored)).map
      (fun b => b.id)
  toDelete.foldl deleteStep (st, 0)

end backupService

/-! ## Git service (`git.service.ts`) -/

/-- Remote URL type. -/
inductive RemoteType where
  | ssh | https
deriving DecidableEq, Repr

/-- Result of `parseRemoteUrl`. -/
structure ParsedRemote where
  type : RemoteType
  provider : Option GitProvider
  owner : Option String
  repo : Option String
deriving DecidableEq, Repr

namespace gitService

/-- Lazy `(.+?)(?:\.git)?$` group: the shortest non-empty prefix `p` of `r`
with `r = p` or `r = p ++ ".git"` — strip a final `.git` unless that would
leave the group empty. -/
def stripDotGit (r : List Char) : String :=
  if 4 < r.length ∧ ".git".toList.isSuffixOf r then
    String.mk (r.take (r.length - 4))
  else String.mk r

/-- Attempt the SSH remote pattern `git@([^:]+):([^/]+)\/(.+?)(?:\.git)?$` at
one start position (host, owner, repo on success). -/
def sshMatchAt (s : List Char) : Option (String × String × String) :=
  if "git@".toList.isPrefixOf s then
    match breakAtChar ':' (s.drop 4) with
    | none => none
    | some (host, afterColon) =>
      if host.isEmpty then none
      else
        match breakAtChar '/' afterColon with
        | none => none
        | some (owner, rest) =>
          if owner.isEmpty || rest.isEmpty then none
          else some (String.mk host, String.mk owner, stripDotGit rest)
  else none

/-- Attempt the HTTPS remote pattern
`https?:\/\/([^/]+)\/([^/]+)\/(.+?)(?:\.git)?$` at one start position. -/
def httpsMatchAt (s : List Char) : Option (String × String × String) :=
  let afterScheme :=
    if "https://".toList.isPrefixOf s then some (s.drop 8)
    else if "http://".toList.isPrefixOf s then some (s.drop 7)
    else none
  match afterScheme with
  | none => none
  | some rest =>
    match breakAtChar '/' rest with
    | none => none
    | some (host, rest1) =>
      if host.isEmpty then none
      else
        match breakAtChar '/' rest1 with
        | none => none
        | some (owner, rest2) =>
          if owner.isEmpty || rest2.isEmpty then none
          else some (String.mk host, String.mk owner, stripDotGit rest2)

/-- Unanchored regex search: try every start position left to right. -/
def sshCaptures (url : String) : Option (String × String × String) :=
  firstSome sshMatchAt url.toList.tails

/-- Unanchored regex search for the HTTPS pattern. -/
def httpsCaptures (url : String) : Option (String × String × String) :=
  firstSome httpsMatchAt url.toList.tails

/-- Provider inference by substring match on the captured host. -/
def inferProvider (host : String) : Option GitProvider :=
  if strContains host "github" then some GitProvider.github
  else if strContains host "gitlab" then some GitProvider.gitlab
  else if strContains host "bitbucket" then some GitProvider.bitbucket
  else if strContains host "azure" || strContains host "visualstudio" then
    some GitProvider.azure
  else none

/-- Model of `parseRemoteUrl(url)` from `git.service.ts`: the type is `ssh`
iff the URL contains `@` and does not start with `https://`; owner, repo and
provider come from the first pattern that matches. -/
def parseRemoteUrl (url : String) : ParsedRemote :=
  let type :=
    if url.toList.contains '@' && !("https://".toList.isPrefixOf url.toList) then
      RemoteType.ssh
    else RemoteType.https
  match sshCaptures url with
  | some (host, owner, repo) =>
    { type, provider := inferProvider host, owner := some owner, repo := some repo }
  | none =>
    match httpsCaptures url with
    | some (host, owner, repo) =>
      { type, provider := inferProvider host, owner := some owner, repo := some repo }
    | none => { type, provider := none, owner := none, repo := none }

/-- Global git config path (`getGlobalGitConfigPath()` without
`XDG_CONFIG_HOME`; environment-dependent in the source, a constant here). -/
def getGlobalGitConfigPath : String := "/home/user/.gitconfig"

/-- Local git config path of a repository. -/
def localConfigPath (repoPath : String) : String :=
  repoPath ++ "/.git/config"

/-- Observable events of a config-mutating operation, in program order:
the `createBackup` call (with whether a record was added to the registry)
and each write to a config file. -/
inductive ConfigEvent where
  | backupCall (path : String) (recorded : Bool)
  | configWrite (path : String)
deriving DecidableEq, Repr

/-- Content written by `git config --add key value`; the git binary is
external, so only the fact that the path is rewritten matters — the new
content is kept abstractly as old content plus the assignment. -/
def gitAddConfig (old : Option String) (key value : String) : String :=
  old.getD "" ++ key ++ "=" ++ value ++ "\n"

/-- Model of `gitService.setGlobalConfig(config)`: back up the global config
path, then write `user.email` and/or `user.name` through git.  Returns the
final state and the event trace. -/
def setGlobalConfig (st : BackupState) (email username : Option String) :
    BackupState × List ConfigEvent :=
  let gp := getGlobalGitConfigPath
  let r := backupService.createBackup st gp BackupType.gitConfigGlobal
    "Setting global git config"
  let st1 := r.1
  let (st2, evs2) :=
    match email with
    | some e =>
      ({ st1 with fs := fsWrite st1.fs gp (gitAddConfig (st1.fs gp) "user.email" e) },
       [ConfigEvent.configWrite gp])
    | none => (st1, [])
  let (st3, evs3) :=
    match username with
    | some u =>
      ({ st2 with fs := fsWrite st2.fs gp (gitAddConfig (st2.fs gp) "user.name" u) },
       [ConfigEvent.configWrite gp])
    | none => (st2, [])
  (st3, ConfigEvent.backupCall gp r.2.isSome :: (evs2 ++ evs3))

/-- Model of `gitService.setLocalConfig(repoPath, config)`: back up
`<repoPath>/.git/config`, then write the local identity through git.
The audit call at the end does not touch the config files. -/
def setLocalConfig (st : BackupState) (repoPath : String) (email username : Option String) :
    BackupState × List ConfigEvent :=
  let lp := localConfigPath repoPath
  let r := backupService.createBackup st lp BackupType.gitConfigLocal
    ("Setting local config for " ++ backupService.baseName repoPath)
  let st1 := r.1
  let (st2, evs2) :=
    match email with
    | some e =>
      ({ st1 with fs := fsWrite st1.fs lp (gitAddConfig (st1.fs lp) "user.email" e) },
       [ConfigEvent.configWrite lp])
    | none => (st1, [])
  let (st3, evs3) :=
    match username with
    | some u =>
      ({ st2 with fs := fsWrite st2.fs lp (gitAddConfig (st2.fs lp) "user.name" u) },
       [ConfigEvent.configWrite lp])
    | none => (st2, [])
  (st3, ConfigEvent.backupCall lp r.2.isSome :: (evs2 ++ evs3))

end gitService

/-! ## Repositories and the `REPO_UNBIND` handler (`repos.ipc.ts`) -/

/-- A remembered repository (`Repository` of the shared types; the derived
`remotes` list is omitted — it is recomputed from git state, never stored
semantically). -/
structure Repository where
  path : String
  name : String
  boundProfileId : Option Nat
  localEmail : Option String
  localUsername : Option String
  detectedProvider : Option GitProvider
  hasMismatch : Bool
  mismatchDetails : Option String
  lastAccessed : String
  status : String
deriving DecidableEq, Repr

namespace secureStore

/-- Model of `secureStore.getRepository(path)`. -/
def getRepository (repos : List Repository) (path : String) : Option Repository :=
  repos.find? (fun r => r.path == path)

/-- Model of `secureStore.saveRepository(repo)`: upsert by path. -/
def saveRepository : List Repository → Repository → List Repository
  | [], q => [q]
  | r :: rs, q => if r.path == q.path then q :: rs else r :: saveRepository rs q

end secureStore

namespace reposIpc

/-- Combined store-and-filesystem state seen by the repository handlers. -/
structure RepoState where
  repos : List Repository
  fs : FS

/-- Model of the `REPO_UNBIND` handler: look the repository up by path and,
when present, save it back with `boundProfileId` cleared.  The handler never
calls into `gitService`, so the filesystem is untouched. -/
def unbind (st : RepoState) (repoPath : String) : RepoState :=
  match secureStore.getRepository st.repos repoPath with
  | none => st
  | some repo =>
    { st with
        repos := secureStore.saveRepository st.repos { repo with boundProfileId := none } }

end reposIpc

/-! ## Nested-object pair collection (used to state the sanitization spec) -/

/-- All key/value pairs reachable from a details map through plain objects
(descending into `obj` values but not into arrays). -/
def objPairs : List (String × JVal) → List (String × JVal)
  | [] => []
  | (k, v) :: rest =>
    (k, v) ::
      ((match v with
        | JVal.obj fields => objPairs fields
        | _ => []) ++ objPairs rest)

/-- Does any object-reachable key look secret-like? -/
def hasSensitive (d : List (String × JVal)) : Bool :=
  (objPairs d).any (fun p => auditService.isSensitiveKey p.1)

/-! ## Concrete instances for witnesses and counterexamples -/

/-- An empty filesystem. -/
def emptyFS : FS := fun _ => none

/-- A stored profile that is not flagged default. -/
def sampleProfile : Profile :=
  { id := 0, label := "Work", provider := GitProvider.github, username := "w",
    email := "w@example.com", authType := AuthType.https, sshKeyPath := none,
    sshHostAlias := none, tokenId := none, isDefault := false,
    color := "#238636", createdAt := "t0", updatedAt := "t0" }

/-- Create a first profile without requesting the default flag (it becomes
default anyway, being the first). -/
def c1CreateInput : CreateProfileInput :=
  { label := "Work", provider := GitProvider.github, username := "w",
    email := "w@x.io", authType := AuthType.https, sshKeyPath := none,
    generateNewKey := false, token := none, isDefault := none, color := none }

/-- Update the same profile with `isDefault: false`. -/
def c1UpdateInput : UpdateProfileInput :=
  { id := 0, label := none, provider := none, username := none, email := none,
    authType := none, sshKeyPath := none, token := none,
    isDefault := some false, color := none }

/-- An audit entry whose details hold a nested field with value `profile-a`. -/
def auditEntryA : AuditLogEntry :=
  auditService.log "audit-1" "2024-01-01T00:00:00.000Z" "profile" "created"
    [("profileId", JVal.str "profile-a")] none none none

/-- The same audit entry with the nested field mutated to `profile-b`. -/
def auditEntryB : AuditLogEntry :=
  auditService.log "audit-1" "2024-01-01T00:00:00.000Z" "profile" "created"
    [("profileId", JVal.str "profile-b")] none none none

/-- Details carrying a password inside an array element. -/
def arrayDetails : List (String × JVal) :=
  [("attempts", JVal.arr [JVal.obj [("password", JVal.str "hunter2")]])]

/-- Details with a top-level secret and a nested secret in a plain object. -/
def mixedDetails : List (String × JVal) :=
  [("password", JVal.str "x"),
   ("ctx", JVal.obj [("apiToken", JVal.str "y"), ("note", JVal.str "ok")])]

/-- Details without any secret-like key. -/
def plainDetails : List (String × JVal) :=
  [("repoPath", JVal.str "/r"), ("profileId", JVal.str "p")]

/-- A backup state with no files and an empty registry. -/
def c4State : BackupState :=
  { fs := emptyFS, registry := [], nextId := 0, now := 0 }

/-- A backup state where the global git config exists. -/
def c4FileState : BackupState :=
  { fs := fsWrite emptyFS gitService.getGlobalGitConfigPath "[user]\n", registry := [],
    nextId := 0, now := 0 }

/-- A registry record whose backup file may or may not exist on disk. -/
def c5Backup : BackupInfo :=
  { id := 5, timestamp := 0, type := BackupType.gitConfigGlobal,
    originalPath := "/f", backupPath := "/bk/f",
    originalHash := "stored-hash", reason := "r", restored := false }

/-- Restore scenario: the id is not in the registry. -/
def c5NotFoundState : BackupState :=
  { fs := emptyFS, registry := [], nextId := 9, now := 0 }

/-- Restore scenario: the record exists but the backup file is gone. -/
def c5MissingFileState : BackupState :=
  { fs := emptyFS, registry := [c5Backup], nextId := 9, now := 0 }

/-- Restore scenario: the backup file exists but re-hashes differently. -/
def c5MismatchState : BackupState :=
  { fs := fsWrite emptyFS "/bk/f" "drifted", registry := [c5Backup], nextId := 9, now := 0 }

/-- A state holding one config file, ready to be backed up. -/
def c3State : BackupState :=
  { fs := fsWrite emptyFS "/repo/.git/config" "[user]\nemail = a@x\n",
    registry := [], nextId := 0, now := 0 }

/-- A forty-day-old backup never restored (retention example of the spec). -/
def oldUnrestored : BackupInfo :=
  { id := 1, timestamp := 60, type := BackupType.gitConfigGlobal,
    originalPath := "/f", backupPath := "/bk/f1",
    originalHash := "h1", reason := "r", restored := false }

/-- A forty-day-old backup already restored. -/
def oldRestored : BackupInfo :=
  { id := 2, timestamp := 60, type := BackupType.gitConfigGlobal,
    originalPath := "/f", backupPath := "/bk/f2",
    originalHash := "h2", reason := "r", restored := true }

/-- Cleanup scenario from the spec: both records are forty days old at day
100, one restored and one not. -/
def c8State : BackupState :=
  { fs := emptyFS, registry := [oldUnrestored, oldRestored], nextId := 3, now := 100 }

/-- A repository record bound to profile 1 with a local identity. -/
def boundRepo : Repository :=
  { path := "/repo", name := "repo", boundProfileId := some 1,
    localEmail := some "w@x.io", localUsername := some "w",
    detectedProvider := some GitProvider.github, hasMismatch := false,
    mismatchDetails := none, lastAccessed := "t", status := "bound" }

/-- A second stored repository, untouched by unbinding the first. -/
def otherRepo : Repository :=
  { boundRepo with path := "/other", name := "other" }

/-- Store-and-filesystem state for the unbind scenario. -/
def c9State : reposIpc.RepoState :=
  { repos := [boundRepo, otherRepo],
    fs := fsWrite emptyFS "/repo/.git/config" "[user]\nemail = w@x.io\n" }

/-! ## C1 — default-profile invariant -/

/-- C1 counterexample: creating a first profile (which becomes default) and
then updating it with `isDefault: false` leaves one stored profile and no
default, so "exactly one default whenever at least one Profile exists" fails
on a reachable operation sequence. -/
theorem profile_default_not_exactly_one :
    (runOps [ProfileOp.create c1CreateInput "t0",
             ProfileOp.update c1UpdateInput "t1"]).profiles.length = 1 ∧
      defaultCount (runOps [ProfileOp.create c1CreateInput "t0",
                            ProfileOp.update c1UpdateInput "t1"]).profiles = 0 := by
  decide

/-! ## C2 — audit checksum and nested details -/

/-- C2: the checksum serializes with
`JSON.stringify(data, Object.keys(data).sort())`, whose array replacer
filters the keys of every nested object as well; a field inside `details`
whose name is not also a top-level entry name is silently dropped, so
mutating it does not change the checksum and `verifyEntry` accepts the
mutated entry. -/
theorem checksum_ignores_nested_detail_mutation :
    auditEntryA.details = [("profileId", JVal.str "profile-a")] ∧
    auditEntryB.details = [("profileId", JVal.str "profile-b")] ∧
    ("profile-a" : String) ≠ "profile-b" ∧
    auditEntryA.checksum = auditEntryB.checksum ∧
    auditService.verifyEntry { auditEntryB with checksum := auditEntryA.checksum } = true := by
  refine ⟨?_, ?_, by decide, ?_, ?_⟩
  · simp [auditEntryA, auditService.log, auditService.sanitizeDetails,
      auditService.isSensitiveKey, strLower, lowerChar, strContains, listContainsSub]
  · simp [auditEntryB, auditService.log, auditService.sanitizeDetails,
      auditService.isSensitiveKey, strLower, lowerChar, strContains, listContainsSub]
  · simp [auditEntryA, auditEntryB, auditService.log, crypto.generateChecksum,
      auditService.entryPayload, crypto.serializeSorted, Json.sortKeys,
      Json.insertSorted, strLe, charListLe, auditService.sanitizeDetails,
      auditService.isSensitiveKey, strLower, lowerChar, strContains,
      listContainsSub, Json.serializeFields, Json.serialize, Json.lookupField,
      Json.quote, Json.escapeChar]
  · simp [auditService.verifyEntry, auditEntryA, auditEntryB, auditService.log,
      crypto.generateChecksum, auditService.entryPayload, crypto.serializeSorted,
      Json.sortKeys, Json.insertSorted, strLe, charListLe,
      auditService.sanitizeDetails, auditService.isSensitiveKey, strLower,
      lowerChar, strContains, listContainsSub, Json.serializeFields,
      Json.serialize, Json.lookupField, Json.quote, Json.escapeChar]

/-! ## C4 — backup-before-write -/

/-- C4 counterexample: when the global config file does not yet exist,
`setGlobalConfig` still writes it, but `createBackup` returned null and the
registry stays empty — the write is not preceded by a recorded backup. -/
theorem setGlobalConfig_unrecorded_backup_write :
    (gitService.setGlobalConfig c4State (some "w@x.io") none).2 =
      [gitService.ConfigEvent.backupCall gitService.getGlobalGitConfigPath false,
       gitService.ConfigEvent.configWrite gitService.getGlobalGitConfigPath] ∧
    (gitService.setGlobalConfig c4State (some "w@x.io") none).1.registry = [] := by
  exact ⟨rfl, rfl⟩

/-! ## C6 — detail sanitization -/

/-- C6 counterexample: a `password` key nested inside an array element
survives sanitization unchanged, although the key name is secret-like, so
"including inside arrays" fails. -/
theorem sanitizeDetails_skips_arrays :
    auditService.isSensitiveKey "password" = true ∧
    auditService.sanitizeDetails arrayDetails = arrayDetails ∧
    ("hunter2" : String) ≠ "[REDACTED]" := by
  refine ⟨by decide, ?_, by decide⟩
  simp [auditService.sanitizeDetails, arrayDetails, auditService.isSensitiveKey,
    strLower, lowerChar, strContains, listContainsSub]

/-! ## C7 — remote URL classification -/

/-- C7 counterexample: `user@host` matches neither remote pattern and its
host is no known provider, yet its type is `ssh` (it contains `@` and does
not start with `https://`), not the `https` the claim requires for every
unrecognized URL. -/
theorem parseRemoteUrl_unmatched_ssh_type :
    gitService.parseRemoteUrl "user@host" =
      { type := RemoteType.ssh, provider := none, owner := none, repo := none } ∧
    RemoteType.ssh ≠ RemoteType.https := by
  exact ⟨by decide, by decide⟩

/-- C7 (amended): the two sample URLs map as the spec says; a URL matching
neither the SSH nor the HTTPS pattern yields no provider, owner or repo,
and its type is `ssh` exactly when it contains `@` without starting with
`https://`, `https` otherwise. -/
theorem parseRemoteUrl_classification :
    gitService.parseRemoteUrl "git@github.com:acme/widgets.git" =
      { type := RemoteType.ssh, provider := some GitProvider.github,
        owner := some "acme", repo := some "widgets" } ∧
    gitService.parseRemoteUrl "https://gitlab.com/acme/widgets" =
      { type := RemoteType.https, provider := some GitProvider.gitlab,
        owner := some "acme", repo := some "widgets" } ∧
    ∀ url : String, gitService.sshCaptures url = none →
      gitService.httpsCaptures url = none →
      gitService.parseRemoteUrl url =
        { type :=
            if url.toList.contains '@' && !("https://".toList.isPrefixOf url.toList) then
              RemoteType.ssh
            else RemoteType.https,
          provider := none, owner := none, repo := none } := by
  refine ⟨by decide, by decide, ?_⟩
  intro url h1 h2
  simp only [gitService.parseRemoteUrl, h1, h2]

/-- C7 witness: the general clause applied to a URL of an unrecognized
scheme. -/
theorem parseRemoteUrl_classification_witness :
    gitService.parseRemoteUrl "ftp://example.com/x" =
      { type := RemoteType.https, provider := none, owner := none, repo := none } := by
  have h := parseRemoteUrl_classification.2.2 "ftp://example.com/x"
    (by decide) (by decide)
  exact h.trans (by decide)

/-! ## C10 — default profile fallback -/

/-- C10: when no stored profile is flagged default, `getDefault` falls back
to the first stored profile (in particular it returns a profile whenever one
exists), and it returns nothing exactly when the store is empty. -/
theorem getDefault_fallback_spec (ps : List Profile) :
    ((∀ p ∈ ps, p.isDefault = false) → profileService.getDefault ps = ps.head?) ∧
      (profileService.getDefault ps = none ↔ ps = []) := by
  constructor
  · intro hnone
    unfold profileService.getDefault
    cases hfind : ps.find? (fun p => p.isDefault) with
    | none => rfl
    | some p =>
      have hmem : p ∈ ps := List.mem_of_find?_eq_some hfind
      have hp : p.isDefault = true := by
        simpa using List.find?_some hfind
      rw [hnone p hmem] at hp
      cases hp
  · unfold profileService.getDefault
    cases hfind : ps.find? (fun p => p.isDefault) with
    | none =>
      cases ps with
      | nil => simp
      | cons a l => simp
    | some p =>
      constructor
      · intro h; cases h
      · intro h
        subst h
        simp at hfind

/-- C10 witness: one stored non-default profile is returned as default. -/
theorem getDefault_fallback_witness :
    profileService.getDefault [sampleProfile] = some sampleProfile := by
  have h := (getDefault_fallback_spec [sampleProfile]).1 (by decide)
  simpa using h

/-! ## C6 (amended) — sanitization through plain objects -/

/-- Sanitization never renames, reorders, drops or adds keys. -/
lemma sanitizeDetails_keys (d : List (String × JVal)) :
    (auditService.sanitizeDetails d).map Prod.fst = d.map Prod.fst := by
  induction d with
  | nil => simp [auditService.sanitizeDetails]
  | cons p rest ih =>
    obtain ⟨k, v⟩ := p
    cases v <;> simp [auditService.sanitizeDetails, ih]

/-- Every secret-like key reachable through plain objects carries the
redaction marker after sanitization. -/
lemma sanitizeDetails_redacted (d : List (String × JVal)) :
    ∀ p ∈ objPairs (auditService.sanitizeDetails d),
      auditService.isSensitiveKey p.1 = true → p.2 = JVal.str "[REDACTED]" := by
  induction d using auditService.sanitizeDetails.induct with
  | case1 => simp [auditService.sanitizeDetails, objPairs]
  | case2 k v rest ihv ihrest =>
    intro p hp hsens
    cases v with
    | obj fields =>
      by_cases hk : auditService.isSensitiveKey k = true
      · rw [show auditService.sanitizeDetails ((k, JVal.obj fields) :: rest) =
            (k, JVal.str "[REDACTED]") :: auditService.sanitizeDetails rest from by
          simp [auditService.sanitizeDetails, hk]] at hp
        simp only [objPairs, List.nil_append, List.mem_cons] at hp
        rcases hp with rfl | hp
        · rfl
        · exact ihrest p hp hsens
      · rw [show auditService.sanitizeDetails ((k, JVal.obj fields) :: rest) =
            (k, JVal.obj (auditService.sanitizeDetails fields)) ::
              auditService.sanitizeDetails rest from by
          simp [auditService.sanitizeDetails, hk]] at hp
        simp only [objPairs, List.mem_cons, List.mem_append] at hp
        rcases hp with rfl | hp | hp
        · exact absurd hsens hk
        · exact ihv p hp hsens
        · exact ihrest p hp hsens
    | str s =>
      by_cases hk : auditService.isSensitiveKey k = true
      · rw [show auditService.sanitizeDetails ((k, JVal.str s) :: rest) =
            (k, JVal.str "[REDACTED]") :: auditService.sanitizeDetails rest from by
          simp [auditService.sanitizeDetails, hk]] at hp
        simp only [objPairs, List.nil_append, List.mem_cons] at hp
        rcases hp with rfl | hp
        · rfl
        · exact ihrest p hp hsens
      · rw [show auditService.sanitizeDetails ((k, JVal.str s) :: rest) =
            (k, JVal.str s) :: auditService.sanitizeDetails rest from by
          simp [auditService.sanitizeDetails, hk]] at hp
        simp only [objPairs, List.nil_append, List.mem_cons] at hp
        rcases hp with rfl | hp
        · exact absurd hsens hk
        · exact ihrest p hp hsens
    | num n =>
      by_cases hk : auditService.isSensitiveKey k = true
      · rw [show auditService.sanitizeDetails ((k, JVal.num n) :: rest) =
            (k, JVal.str "[REDACTED]") :: auditService.sanitizeDetails rest from by
          simp [auditService.sanitizeDetails, hk]] at hp
        simp only [objPairs, List.nil_append, List.mem_cons] at hp
        rcases hp with rfl | hp
        · rfl
        · exact ihrest p hp hsens
      · rw [show auditService.sanitizeDetails ((k, JVal.num n) :: rest) =
            (k, JVal.num n) :: auditService.sanitizeDetails rest from by
          simp [auditService.sanitizeDetails, hk]] at hp
        simp only [objPairs, List.nil_append, List.mem_cons] at hp
        rcases hp with rfl | hp
        · exact absurd hsens hk
        · exact ihrest p hp hsens
    | bool b =>
      by_cases hk : auditService.isSensitiveKey k = true
      · rw [show auditService.sanitizeDetails ((k, JVal.bool b) :: rest) =
            (k, JVal.str "[REDACTED]") :: auditService.sanitizeDetails rest from by
          simp [auditService.sanitizeDetails, hk]] at hp
        simp only [objPairs, List.nil_append, List.mem_cons] at hp
        rcases hp with rfl | hp
        · rfl
        · exact ihrest p hp hsens
      · rw [show auditService.sanitizeDetails ((k, JVal.bool b) :: rest) =
            (k, JVal.bool b) :: auditService.sanitizeDetails rest from by
          simp [auditService.sanitizeDetails, hk]] at hp
        simp only [objPairs, List.nil_append, List.mem_cons] at hp
        rcases hp with rfl | hp
        · exact absurd hsens hk
        · exact ihrest p hp hsens
    | null =>
      by_cases hk : auditService.isSensitiveKey k = true
      · rw [show auditService.sanitizeDetails ((k, JVal.null) :: rest) =
            (k, JVal.str "[REDACTED]") :: auditService.sanitizeDetails rest from by
          simp [auditService.sanitizeDetails, hk]] at hp
        simp only [objPairs, List.nil_append, List.mem_cons] at hp
        rcases hp with rfl | hp
        · rfl
        · exact ihrest p hp hsens
      · rw [show auditService.sanitizeDetails ((k, JVal.null) :: rest) =
            (k, JVal.null) :: auditService.sanitizeDetails rest from by
          simp [auditService.sanitizeDetails, hk]] at hp
        simp only [objPairs, List.nil_append, List.mem_cons] at hp
        rcases hp with rfl | hp
        · exact absurd hsens hk
        · exact ihrest p hp hsens
    | arr elems =>
      by_cases hk : auditService.isSensitiveKey k = true
      · rw [show auditService.sanitizeDetails ((k, JVal.arr elems) :: rest) =
            (k, JVal.str "[REDACTED]") :: auditService.sanitizeDetails rest from by
          simp [auditService.sanitizeDetails, hk]] at hp
        simp only [objPairs, List.nil_append, List.mem_cons] at hp
        rcases hp with rfl | hp
        · rfl
        · exact ihrest p hp hsens
      · rw [show auditService.sanitizeDetails ((k, JVal.arr elems) :: rest) =
            (k, JVal.arr elems) :: auditService.sanitizeDetails rest from by
          simp [auditService.sanitizeDetails, hk]] at hp
        simp only [objPairs, List.nil_append, List.mem_cons] at hp
        rcases hp with rfl | hp
        · exact absurd hsens hk
        · exact ihrest p hp hsens

/-- A details map without secret-like keys passes through unchanged. -/
lemma sanitizeDetails_id_of_no_sensitive (d : List (String × JVal)) :
    hasSensitive d = false → auditService.sanitizeDetails d = d := by
  induction d using auditService.sanitizeDetails.induct with
  | case1 => intro _; simp [auditService.sanitizeDetails]
  | case2 k v rest ihv ihrest =>
    intro h
    cases v with
    | obj fields =>
      simp only [hasSensitive, objPairs, List.any_cons, List.any_append,
        Bool.or_eq_false_iff] at h
      obtain ⟨hk, hv, hrest⟩ := h
      have hfields : auditService.sanitizeDetails fields = fields :=
        ihv (by simpa [hasSensitive] using hv)
      have hrest' : auditService.sanitizeDetails rest = rest :=
        ihrest (by simp [hasSensitive, hrest])
      simp [auditService.sanitizeDetails, hk, hrest', hfields]
    | str s =>
      simp only [hasSensitive, objPairs, List.any_cons, List.any_append,
        List.any_nil, List.nil_append, Bool.or_eq_false_iff] at h
      obtain ⟨hk, hrest⟩ := h
      have hrest' : auditService.sanitizeDetails rest = rest :=
        ihrest (by simp [hasSensitive, hrest])
      simp [auditService.sanitizeDetails, hk, hrest']
    | num n =>
      simp only [hasSensitive, objPairs, List.any_cons, List.any_append,
        List.any_nil, List.nil_append, Bool.or_eq_false_iff] at h
      obtain ⟨hk, hrest⟩ := h
      have hrest' : auditService.sanitizeDetails rest = rest :=
        ihrest (by simp [hasSensitive, hrest])
      simp [auditService.sanitizeDetails, hk, hrest']
    | bool b =>
      simp only [hasSensitive, objPairs, List.any_cons, List.any_append,
        List.any_nil, List.nil_append, Bool.or_eq_false_iff] at h
      obtain ⟨hk, hrest⟩ := h
      have hrest' : auditService.sanitizeDetails rest = rest :=
        ihrest (by simp [hasSensitive, hrest])
      simp [auditService.sanitizeDetails, hk, hrest']
    | null =>
      simp only [hasSensitive, objPairs, List.any_cons, List.any_append,
        List.any_nil, List.nil_append, Bool.or_eq_false_iff] at h
      obtain ⟨hk, hrest⟩ := h
      have hrest' : auditService.sanitizeDetails rest = rest :=
        ihrest (by simp [hasSensitive, hrest])
      simp [auditService.sanitizeDetails, hk, hrest']
    | arr elems =>
      simp only [hasSensitive, objPairs, List.any_cons, List.any_append,
        List.any_nil, List.nil_append, Bool.or_eq_false_iff] at h
      obtain ⟨hk, hrest⟩ := h
      have hrest' : auditService.sanitizeDetails rest = rest :=
        ihrest (by simp [hasSensitive, hrest])
      simp [auditService.sanitizeDetails, hk, hrest']

/-- C6 (amended): sanitization preserves the key structure, redacts every
secret-like key reachable through plain (non-array) objects, and leaves a
details map without secret-like keys completely unchanged; values inside
arrays are not descended into (see the counterexample). -/
theorem sanitizeDetails_object_redaction (d : List (String × JVal)) :
    ((auditService.sanitizeDetails d).map Prod.fst = d.map Prod.fst) ∧
    (∀ p ∈ objPairs (auditService.sanitizeDetails d),
        auditService.isSensitiveKey p.1 = true → p.2 = JVal.str "[REDACTED]") ∧
    (hasSensitive d = false → auditService.sanitizeDetails d = d) :=
  ⟨sanitizeDetails_keys d, sanitizeDetails_redacted d,
   sanitizeDetails_id_of_no_sensitive d⟩

/-- C6 witness: the spec applied to a map with secrets (keys preserved) and
to a map without secrets (unchanged). -/
theorem sanitizeDetails_object_redaction_witness :
    (auditService.sanitizeDetails mixedDetails).map Prod.fst = mixedDetails.map Prod.fst ∧
    auditService.sanitizeDetails plainDetails = plainDetails :=
  ⟨(sanitizeDetails_object_redaction mixedDetails).1,
   (sanitizeDetails_object_redaction plainDetails).2.2 (by
     rw [show hasSensitive plainDetails = (objPairs plainDetails).any
           (fun p => auditService.isSensitiveKey p.1) from rfl,
         show objPairs plainDetails = plainDetails from by simp [objPairs, plainDetails]]
     decide)⟩

/-! ## C5 — restore failure modes -/

/-- C5: restore fails and leaves the state untouched when the id is unknown
or the backup file is missing; when the backup re-hashes differently from
the stored hash, restore still succeeds, overwrites the original path with
the backup content, and marks the record restored. -/
theorem restoreBackup_error_handling :
    (∀ (st : BackupState) (i : Nat),
        st.registry.find? (fun b => b.id == i) = none →
        backupService.restoreBackup st i = (st, false)) ∧
    (∀ (st : BackupState) (i : Nat) (b : BackupInfo),
        st.registry.find? (fun b => b.id == i) = some b →
        st.fs b.backupPath = none →
        backupService.restoreBackup st i = (st, false)) ∧
    (∀ (st : BackupState) (i : Nat) (b : BackupInfo) (content : String),
        st.registry.find? (fun b => b.id == i) = some b →
        st.fs b.backupPath = some content →
        crypto.sha256 content ≠ b.originalHash →
        (backupService.restoreBackup st i).2 = true ∧
        (backupService.restoreBackup st i).1.fs b.originalPath = some content ∧
        (backupService.restoreBackup st i).1.registry =
          backupService.markRestored st.registry i) := by
  refine ⟨?_, ?_, ?_⟩
  · intro st i h
    simp [backupService.restoreBackup, h]
  · intro st i b h hf
    simp [backupService.restoreBackup, h, hf]
  · intro st i b content h hf _
    refine ⟨?_, ?_, ?_⟩
    · simp [backupService.restoreBackup, h, hf]
    · simp [backupService.restoreBackup, h, hf, fsWrite]
    · simp [backupService.restoreBackup, h, hf]

set_option maxRecDepth 40000 in
/-- C5 witness: the three scenarios on concrete states — unknown id, missing
backup file, and a drifted backup that still restores. -/
theorem restoreBackup_error_handling_witness :
    backupService.restoreBackup c5NotFoundState 5 = (c5NotFoundState, false) ∧
    backupService.restoreBackup c5MissingFileState 5 = (c5MissingFileState, false) ∧
    ((backupService.restoreBackup c5MismatchState 5).2 = true ∧
     (backupService.restoreBackup c5MismatchState 5).1.fs "/f" = some "drifted" ∧
     (backupService.restoreBackup c5MismatchState 5).1.registry =
       backupService.markRestored c5MismatchState.registry 5) := by
  refine ⟨restoreBackup_error_handling.1 c5NotFoundState 5 (by decide),
          restoreBackup_error_handling.2.1 c5MissingFileState 5 c5Backup (by decide) rfl,
          ?_⟩
  have h := restoreBackup_error_handling.2.2 c5MismatchState 5 c5Backup "drifted"
    (by decide) rfl (by decide)
  exact h

/-! ## C3 — backup/restore round trip -/

/-- Finding skips a prefix on which the predicate is false everywhere. -/
lemma find?_append_none {α : Type} (f : α → Bool) (l1 l2 : List α)
    (h : ∀ x ∈ l1, f x = false) : (l1 ++ l2).find? f = l2.find? f := by
  induction l1 with
  | nil => rfl
  | cons a t ih =>
    have ha : f a = false := h a (List.mem_cons_self a t)
    rw [List.cons_append, List.find?_cons, ha]
    exact ih (fun x hx => h x (List.mem_cons_of_mem a hx))

/-- Marking a freshly appended record restores exactly that record. -/
lemma markRestored_append (l : List BackupInfo) (b : BackupInfo)
    (h : ∀ x ∈ l, (x.id == b.id) = false) :
    backupService.markRestored (l ++ [b]) b.id =
      l ++ [{ b with restored := true }] := by
  induction l with
  | nil => simp [backupService.markRestored]
  | cons a t ih =>
    have ha : (a.id == b.id) = false := h a (List.mem_cons_self a t)
    have ih' := ih (fun x hx => h x (List.mem_cons_of_mem a hx))
    simp [backupService.markRestored, ha, ih']

/-- Successful restore: the record is found and the backup file exists. -/
lemma restoreBackup_found (st : BackupState) (i : Nat) (b : BackupInfo)
    (content : String)
    (hfind : st.registry.find? (fun x => x.id == i) = some b)
    (hfs : st.fs b.backupPath = some content) :
    backupService.restoreBackup st i =
      ({ st with fs := fsWrite st.fs b.originalPath content,
                 registry := backupService.markRestored st.registry i }, true) := by
  simp [backupService.restoreBackup, hfind, hfs]

/-- Creation on an existing file appends exactly the `backupRecord`. -/
lemma createBackup_eq (st : BackupState) (p : String) (ty : BackupType)
    (reason content : String) (hfile : st.fs p = some content) :
    backupService.createBackup st p ty reason =
      ({ st with
          fs := fsWrite st.fs (backupService.backupFileName p st.now st.nextId) content,
          registry := st.registry ++ [backupService.backupRecord st p ty reason content],
          nextId := st.nextId + 1 },
       some (backupService.backupRecord st p ty reason content)) := by
  simp [backupService.createBackup, backupService.backupRecord, hfile]

/-- C3: backing up an existing file, overwriting it, and restoring the new
backup succeeds, reproduces the pre-write content byte for byte, and marks
the (freshly appended) backup record restored. -/
theorem createBackup_restoreBackup_roundtrip
    (st : BackupState) (p content newContent : String)
    (ty : BackupType) (reason : String)
    (hfile : st.fs p = some content)
    (hfresh : ∀ b ∈ st.registry, b.id < st.nextId)
    (hpath : backupService.backupFileName p st.now st.nextId ≠ p) :
    ((backupService.createBackup st p ty reason).2.map (fun b => b.id) =
        some st.nextId) ∧
    (backupService.restoreBackup
        { (backupService.createBackup st p ty reason).1 with
          fs := fsWrite (backupService.createBackup st p ty reason).1.fs p newContent }
        st.nextId).2 = true ∧
    (backupService.restoreBackup
        { (backupService.createBackup st p ty reason).1 with
          fs := fsWrite (backupService.createBackup st p ty reason).1.fs p newContent }
        st.nextId).1.fs p = some content ∧
    (backupService.restoreBackup
        { (backupService.createBackup st p ty reason).1 with
          fs := fsWrite (backupService.createBackup st p ty reason).1.fs p newContent }
        st.nextId).1.registry.map (fun b => (b.id, b.restored)) =
      st.registry.map (fun b => (b.id, b.restored)) ++ [(st.nextId, true)] := by
  have hne : ∀ x ∈ st.registry, (x.id == st.nextId) = false := by
    intro x hx
    exact beq_eq_false_iff_ne.mpr (Nat.ne_of_lt (hfresh x hx))
  have hfind2 :
      (st.registry ++ [backupService.backupRecord st p ty reason content]).find?
        (fun x => x.id == st.nextId) =
        some (backupService.backupRecord st p ty reason content) := by
    rw [find?_append_none _ _ _ hne, List.find?_cons]
    simp [backupService.backupRecord]
  have hbp :
      (fsWrite
          (fsWrite st.fs (backupService.backupFileName p st.now st.nextId) content) p
          newContent)
        (backupService.backupRecord st p ty reason content).backupPath =
        some content := by
    simp [fsWrite, backupService.backupRecord, hpath]
  have hrb := restoreBackup_found
    { st with
      fs := fsWrite
        (fsWrite st.fs (backupService.backupFileName p st.now st.nextId) content) p
        newContent,
      registry := st.registry ++ [backupService.backupRecord st p ty reason content],
      nextId := st.nextId + 1 }
    st.nextId (backupService.backupRecord st p ty reason content) content hfind2 hbp
  rw [createBackup_eq st p ty reason content hfile]
  refine ⟨rfl, ?_, ?_, ?_⟩
  · exact congrArg Prod.snd hrb
  · have h1 : (backupService.restoreBackup
        { st with
          fs := fsWrite
            (fsWrite st.fs (backupService.backupFileName p st.now st.nextId) content) p
            newContent,
          registry := st.registry ++ [backupService.backupRecord st p ty reason content],
          nextId := st.nextId + 1 }
        st.nextId).1.fs p = some content := by
      rw [hrb]
      simp [fsWrite, backupService.backupRecord]
    exact h1
  · have h2 : (backupService.restoreBackup
        { st with
          fs := fsWrite
            (fsWrite st.fs (backupService.backupFileName p st.now st.nextId) content) p
            newContent,
          registry := st.registry ++ [backupService.backupRecord st p ty reason content],
          nextId := st.nextId + 1 }
        st.nextId).1.registry.map (fun b => (b.id, b.restored)) =
        st.registry.map (fun b => (b.id, b.restored)) ++ [(st.nextId, true)] := by
      rw [hrb]
      have hm := markRestored_append st.registry
        (backupService.backupRecord st p ty reason content) hne
      simp only []
      rw [show backupService.markRestored
          (st.registry ++ [backupService.backupRecord st p ty reason content])
          st.nextId =
          st.registry ++
            [{ backupService.backupRecord st p ty reason content with restored := true }]
        from hm]
      simp [backupService.backupRecord]
    exact h2

/-- C3 witness: a concrete config file round-trips through an overwrite. -/
theorem createBackup_restoreBackup_roundtrip_witness :
    (backupService.restoreBackup
        { (backupService.createBackup c3State "/repo/.git/config"
            BackupType.gitConfigLocal "bind").1 with
          fs := fsWrite (backupService.createBackup c3State "/repo/.git/config"
              BackupType.gitConfigLocal "bind").1.fs "/repo/.git/config"
            "[user]\nemail = hacked\n" }
        0).1.fs "/repo/.git/config" = some "[user]\nemail = a@x\n" := by
  have h := createBackup_restoreBackup_roundtrip c3State "/repo/.git/config"
    "[user]\nemail = a@x\n" "[user]\nemail = hacked\n" BackupType.gitConfigLocal
    "bind" rfl (by simp [c3State]) (by decide)
  exact h.2.2.1

/-! ## C4 (amended) — backup call precedes every config write -/

/-- Relation between a created backup's presence and the file's existence. -/
lemma createBackup_isSome (st : BackupState) (pth : String) (ty : BackupType)
    (rsn : String) :
    (backupService.createBackup st pth ty rsn).2.isSome = (st.fs pth).isSome := by
  cases h : st.fs pth <;> simp [backupService.createBackup, h]

/-- C4 (amended): both config mutators open their trace with the
`createBackup` call on the exact target path; every further event is a write
to that same path; config writes never touch the registry (the registry of
the final state is the one the backup stage produced); and when the target
file exists, a registry record for exactly that path has been appended. -/
theorem setConfig_backup_call_precedes_write
    (st : BackupState) (email username : Option String) (repoPath : String) :
    ((gitService.setGlobalConfig st email username).2.head? =
        some (gitService.ConfigEvent.backupCall gitService.getGlobalGitConfigPath
          ((st.fs gitService.getGlobalGitConfigPath).isSome)) ∧
      (∀ e ∈ (gitService.setGlobalConfig st email username).2.tail,
          e = gitService.ConfigEvent.configWrite gitService.getGlobalGitConfigPath) ∧
      (gitService.setGlobalConfig st email username).1.registry =
        (backupService.createBackup st gitService.getGlobalGitConfigPath
          BackupType.gitConfigGlobal "Setting global git config").1.registry ∧
      ((st.fs gitService.getGlobalGitConfigPath).isSome →
        (gitService.setGlobalConfig st email username).1.registry.map
            (fun b => b.originalPath) =
          st.registry.map (fun b => b.originalPath) ++
            [gitService.getGlobalGitConfigPath])) ∧
    ((gitService.setLocalConfig st repoPath email username).2.head? =
        some (gitService.ConfigEvent.backupCall (gitService.localConfigPath repoPath)
          ((st.fs (gitService.localConfigPath repoPath)).isSome)) ∧
      (∀ e ∈ (gitService.setLocalConfig st repoPath email username).2.tail,
          e = gitService.ConfigEvent.configWrite (gitService.localConfigPath repoPath)) ∧
      (gitService.setLocalConfig st repoPath email username).1.registry =
        (backupService.createBackup st (gitService.localConfigPath repoPath)
          BackupType.gitConfigLocal
          ("Setting local config for " ++ backupService.baseName repoPath)).1.registry ∧
      ((st.fs (gitService.localConfigPath repoPath)).isSome →
        (gitService.setLocalConfig st repoPath email username).1.registry.map
            (fun b => b.originalPath) =
          st.registry.map (fun b => b.originalPath) ++
            [gitService.localConfigPath repoPath])) := by
  constructor
  · refine ⟨?_, ?_, ?_, ?_⟩
    · cases email <;> cases username <;>
        simp [gitService.setGlobalConfig, createBackup_isSome]
    · cases email <;> cases username <;>
        simp [gitService.setGlobalConfig]
    · cases email <;> cases username <;>
        simp [gitService.setGlobalConfig]
    · intro hsome
      cases hfs : st.fs gitService.getGlobalGitConfigPath with
      | none => rw [hfs] at hsome; simp at hsome
      | some c =>
        cases email <;> cases username <;>
          simp [gitService.setGlobalConfig, backupService.createBackup, hfs]
  · refine ⟨?_, ?_, ?_, ?_⟩
    · cases email <;> cases username <;>
        simp [gitService.setLocalConfig, createBackup_isSome]
    · cases email <;> cases username <;>
        simp [gitService.setLocalConfig]
    · cases email <;> cases username <;>
        simp [gitService.setLocalConfig]
    · intro hsome
      cases hfs : st.fs (gitService.localConfigPath repoPath) with
      | none => rw [hfs] at hsome; simp at hsome
      | some c =>
        cases email <;> cases username <;>
          simp [gitService.setLocalConfig, backupService.createBackup, hfs]

/-- C4 witness: on a state where the global config exists, the trace starts
with the backup call, the registry records the path, and the local variant
opens with its own backup call. -/
theorem setConfig_backup_call_precedes_write_witness :
    (gitService.setGlobalConfig c4FileState (some "w@x.io") (some "w")).2.head? =
      some (gitService.ConfigEvent.backupCall gitService.getGlobalGitConfigPath true) ∧
    (gitService.setGlobalConfig c4FileState (some "w@x.io") (some "w")).1.registry.map
        (fun b => b.originalPath) = [gitService.getGlobalGitConfigPath] ∧
    (gitService.setLocalConfig c4FileState "/repo" (some "w@x.io") (some "w")).2.head? =
      some (gitService.ConfigEvent.backupCall (gitService.localConfigPath "/repo") false) := by
  have h := setConfig_backup_call_precedes_write c4FileState
    (some "w@x.io") (some "w") "/repo"
  exact ⟨h.1.1, h.1.2.2.2 rfl, h.2.1⟩

/-! ## C9 — unbind only clears the stored association -/

/-- Mapping the unbind update over records whose paths all differ from the
target changes nothing. -/
lemma map_if_unbound_id (l : List Repository) (p : String)
    (h : ∀ r ∈ l, r.path ≠ p) :
    l.map (fun r => if r.path = p then { r with boundProfileId := none } else r) = l := by
  induction l with
  | nil => rfl
  | cons a t ih =>
    rw [List.map_cons, if_neg (h a (List.mem_cons_self a t)),
      ih (fun r hr => h r (List.mem_cons_of_mem a hr))]

/-- The stored-repository update of the unbind handler is the pointwise map
clearing `boundProfileId` on the record with the target path. -/
lemma unbind_repos_map (repos : List Repository) (p : String)
    (hn : (repos.map (fun r => r.path)).Nodup) :
    (match secureStore.getRepository repos p with
     | none => repos
     | some repo => secureStore.saveRepository repos { repo with boundProfileId := none }) =
    repos.map (fun r => if r.path = p then { r with boundProfileId := none } else r) := by
  induction repos with
  | nil => rfl
  | cons a t ih =>
    by_cases ha : (a.path == p) = true
    · have hap : a.path = p := eq_of_beq ha
      rw [show secureStore.getRepository (a :: t) p = some a from by
        simp [secureStore.getRepository, List.find?_cons, ha]]
      show secureStore.saveRepository (a :: t) { a with boundProfileId := none } = _
      rw [show secureStore.saveRepository (a :: t) { a with boundProfileId := none } =
          { a with boundProfileId := none } :: t from by
        simp [secureStore.saveRepository]]
      rw [List.map_cons, if_pos hap]
      have hnot : ∀ r ∈ t, r.path ≠ p := by
        intro r hr hrp
        exact (List.nodup_cons.mp hn).1
          (by simpa [hap, hrp] using List.mem_map_of_mem (fun r => r.path) hr)
      rw [map_if_unbound_id t p hnot]
    · have hap : a.path ≠ p := by
        intro hEq
        rw [hEq] at ha
        simp at ha
      rw [show secureStore.getRepository (a :: t) p = secureStore.getRepository t p from by
        simp [secureStore.getRepository, List.find?_cons, ha]]
      cases hfind : secureStore.getRepository t p with
      | none =>
        have hnone : ∀ r ∈ t, r.path ≠ p := by
          intro r hr hrp
          have hfn : t.find? (fun r => r.path == p) = none := by
            simpa [secureStore.getRepository] using hfind
          have := List.find?_eq_none.mp hfn r hr
          simp [hrp] at this
        show (a :: t) =
          (a :: t).map (fun r => if r.path = p then { r with boundProfileId := none } else r)
        rw [List.map_cons, if_neg hap, map_if_unbound_id t p hnone]
      | some repo =>
        have hfn : t.find? (fun r => r.path == p) = some repo := by
          simpa [secureStore.getRepository] using hfind
        have hrp : repo.path = p := by
          have h' := List.find?_some hfn
          exact eq_of_beq (by simpa using h')
        have hhead : (a.path == repo.path) = false := by
          have hne : a.path ≠ repo.path := by
            intro hEq
            rw [hEq, hrp] at hap
            exact hap rfl
          exact beq_eq_false_iff_ne.mpr hne
        show secureStore.saveRepository (a :: t) { repo with boundProfileId := none } = _
        rw [show secureStore.saveRepository (a :: t) { repo with boundProfileId := none } =
            a :: secureStore.saveRepository t { repo with boundProfileId := none } from by
          simp [secureStore.saveRepository, hhead]]
        have ih' := ih (List.nodup_cons.mp hn).2
        rw [hfind] at ih'
        rw [List.map_cons, if_neg hap]
        exact congrArg (List.cons a) ih'

/-- C9: unbinding a repository path never touches the filesystem (in
particular the repository's `.git/config` and its local `user.email` and
`user.name` stay as they are), and the only stored-record change is clearing
`boundProfileId` on the record with that path; every other field and every
other record are unchanged. -/
theorem unbind_clears_only_binding (st : reposIpc.RepoState) (p : String)
    (hnodup : (st.repos.map (fun r => r.path)).Nodup) :
    (reposIpc.unbind st p).fs = st.fs ∧
    (reposIpc.unbind st p).repos =
      st.repos.map (fun r => if r.path = p then { r with boundProfileId := none } else r) := by
  constructor
  · unfold reposIpc.unbind
    cases secureStore.getRepository st.repos p <;> rfl
  · unfold reposIpc.unbind
    have h := unbind_repos_map st.repos p hnodup
    cases hfind : secureStore.getRepository st.repos p with
    | none =>
      rw [hfind] at h
      simpa using h
    | some repo =>
      rw [hfind] at h
      simpa using h

/-- C9 witness: unbinding `/repo` clears its binding, keeps its other fields
and the second record, and leaves the filesystem alone. -/
theorem unbind_clears_only_binding_witness :
    (reposIpc.unbind c9State "/repo").fs = c9State.fs ∧
    (reposIpc.unbind c9State "/repo").repos =
      [{ boundRepo with boundProfileId := none }, otherRepo] := by
  have h := unbind_clears_only_binding c9State "/repo" (by decide)
  exact ⟨h.1, h.2.trans (by decide)⟩

/-! ## C8 — retention cleanup -/

/-- Deletions whose ids avoid the head record commute with consing it onto
the registry. -/
lemma deleteStep_skip (ids : List Nat) :
    ∀ (fs : FS) (nId : Nat) (now : Int) (b : BackupInfo) (rest : List BackupInfo) (k : Nat),
      b.id ∉ ids →
      ids.foldl backupService.deleteStep
          ({ fs := fs, registry := b :: rest, nextId := nId, now := now }, k) =
        (let r := ids.foldl backupService.deleteStep
            ({ fs := fs, registry := rest, nextId := nId, now := now }, k)
         ({ fs := r.1.fs, registry := b :: r.1.registry, nextId := r.1.nextId,
            now := r.1.now }, r.2)) := by
  induction ids with
  | nil =>
    intro fs nId now b rest k _
    rfl
  | cons i ids ih =>
    intro fs nId now b rest k hmem
    have hne : (b.id == i) = false := by
      simp only [List.mem_cons, not_or] at hmem
      exact beq_eq_false_iff_ne.mpr hmem.1
    have hmem' : b.id ∉ ids := by
      simp only [List.mem_cons, not_or] at hmem
      exact hmem.2
    simp only [List.foldl_cons]
    cases hrm : backupService.removeFirst rest i with
    | none =>
      rw [show backupService.deleteStep
          ({ fs := fs, registry := b :: rest, nextId := nId, now := now }, k) i =
            ({ fs := fs, registry := b :: rest, nextId := nId, now := now }, k) from by
        simp [backupService.deleteStep, backupService.deleteBackup,
          backupService.removeFirst, hne, hrm]]
      rw [show backupService.deleteStep
          ({ fs := fs, registry := rest, nextId := nId, now := now }, k) i =
            ({ fs := fs, registry := rest, nextId := nId, now := now }, k) from by
        simp [backupService.deleteStep, backupService.deleteBackup,
          backupService.removeFirst, hrm]]
      exact ih fs nId now b rest k hmem'
    | some pr =>
      obtain ⟨x, rem⟩ := pr
      rw [show backupService.deleteStep
          ({ fs := fs, registry := b :: rest, nextId := nId, now := now }, k) i =
            ({ fs := if (fs x.backupPath).isSome then fsRemove fs x.backupPath else fs,
               registry := b :: rem, nextId := nId, now := now }, k + 1) from by
        simp [backupService.deleteStep, backupService.deleteBackup,
          backupService.removeFirst, hne, hrm]]
      rw [show backupService.deleteStep
          ({ fs := fs, registry := rest, nextId := nId, now := now }, k) i =
            ({ fs := if (fs x.backupPath).isSome then fsRemove fs x.backupPath else fs,
               registry := rem, nextId := nId, now := now }, k + 1) from by
        simp [backupService.deleteStep, backupService.deleteBackup,
          backupService.removeFirst, hrm]]
      exact ih _ nId now b rem (k + 1) hmem'

/-- Folding deletions over the ids of the records selected by `P` removes
exactly those records and counts every one of them. -/
lemma cleanup_fold_spec (P : BackupInfo → Bool) :
    ∀ (reg : List BackupInfo) (fs : FS) (nId : Nat) (now : Int) (k : Nat),
      (reg.map (fun b => b.id)).Nodup →
      (((reg.filter P).map (fun b => b.id)).foldl backupService.deleteStep
          ({ fs := fs, registry := reg, nextId := nId, now := now }, k)).1.registry =
        reg.filter (fun b => !(P b)) ∧
      (((reg.filter P).map (fun b => b.id)).foldl backupService.deleteStep
          ({ fs := fs, registry := reg, nextId := nId, now := now }, k)).2 =
        k + (reg.filter P).length := by
  intro reg
  induction reg with
  | nil =>
    intro fs nId now k _
    simp
  | cons b rest ih =>
    intro fs nId now k hn
    have htail := (List.nodup_cons.mp hn).2
    have hbnotin : b.id ∉ rest.map (fun x => x.id) := (List.nodup_cons.mp hn).1
    by_cases hb : P b = true
    · rw [show (b :: rest).filter P = b :: rest.filter P from by
        simp [List.filter_cons, hb]]
      simp only [List.map_cons, List.foldl_cons]
      rw [show backupService.deleteStep
          ({ fs := fs, registry := b :: rest, nextId := nId, now := now }, k) b.id =
            ({ fs := if (fs b.backupPath).isSome then fsRemove fs b.backupPath else fs,
               registry := rest, nextId := nId, now := now }, k + 1) from by
        simp [backupService.deleteStep, backupService.deleteBackup,
          backupService.removeFirst]]
      have h := ih (if (fs b.backupPath).isSome then fsRemove fs b.backupPath else fs)
        nId now (k + 1) htail
      refine ⟨?_, ?_⟩
      · rw [h.1]
        simp [List.filter_cons, hb]
      · rw [h.2]
        simp [List.filter_cons, hb]
        omega
    · rw [show (b :: rest).filter P = rest.filter P from by
        simp [List.filter_cons, hb]]
      have hnotin : b.id ∉ (rest.filter P).map (fun x => x.id) := by
        intro hmem
        exact hbnotin ((List.Sublist.map (fun x => x.id) (List.filter_sublist rest)).subset hmem)
      rw [deleteStep_skip _ fs nId now b rest k hnotin]
      have h := ih fs nId now k htail
      refine ⟨?_, ?_⟩
      · simp only []
        rw [show (b :: rest).filter (fun x => !(P x)) = b :: rest.filter (fun x => !(P x)) from by
          simp [List.filter_cons, hb]] at *
        simp [h.1]
      · simpa using h.2

/-- C8: cleanup deletes exactly the registry records strictly older than the
cutoff that were never restored — restored records survive regardless of
age — and returns the number removed. -/
theorem cleanupOldBackups_spec (st : BackupState) (d : Int)
    (hnodup : (st.registry.map (fun b => b.id)).Nodup) :
    (backupService.cleanupOldBackups st d).1.registry =
      st.registry.filter (fun b => !(decide (b.timestamp < st.now - d) && !b.restored)) ∧
    (backupService.cleanupOldBackups st d).2 =
      (st.registry.filter (fun b => decide (b.timestamp < st.now - d) && !b.restored)).length := by
  obtain ⟨fs, reg, nId, now⟩ := st
  have h := cleanup_fold_spec (fun b => decide (b.timestamp < now - d) && !b.restored)
    reg fs nId now 0 hnodup
  simpa [backupService.cleanupOldBackups] using h

/-- C8 witness: the spec's retention example — a forty-day-old unrestored
backup and a forty-day-old restored one, retention 30 days: only the
unrestored one is removed and the count is 1. -/
theorem cleanupOldBackups_spec_witness :
    (backupService.cleanupOldBackups c8State 30).1.registry = [oldRestored] ∧
    (backupService.cleanupOldBackups c8State 30).2 = 1 := by
  have h := cleanupOldBackups_spec c8State 30 (by decide)
  exact ⟨h.1.trans (by decide), h.2.trans (by decide)⟩

/-! ## C1 (amended) — at most one default profile, always -/

/-- Upserting a fresh id pushes at the end. -/
lemma saveProfile_not_mem (ps : List Profile) (q : Profile)
    (h : q.id ∉ profileIds ps) :
    secureStore.saveProfile ps q = ps ++ [q] := by
  induction ps with
  | nil => rfl
  | cons a t ih =>
    have h1 : ¬q.id = a.id ∧ q.id ∉ profileIds t := by
      simpa [profileIds, not_or] using h
    have hne : (a.id == q.id) = false :=
      beq_eq_false_iff_ne.mpr (fun e => h1.1 e.symm)
    simp [secureStore.saveProfile, hne, ih h1.2]

/-- Upserting skips a prefix that does not contain the id. -/
lemma saveProfile_append_left (l1 l2 : List Profile) (q : Profile)
    (h : q.id ∉ profileIds l1) :
    secureStore.saveProfile (l1 ++ l2) q = l1 ++ secureStore.saveProfile l2 q := by
  induction l1 with
  | nil => rfl
  | cons a t ih =>
    have h1 : ¬q.id = a.id ∧ q.id ∉ profileIds t := by
      simpa [profileIds, not_or] using h
    have hne : (a.id == q.id) = false :=
      beq_eq_false_iff_ne.mpr (fun e => h1.1 e.symm)
    simp [secureStore.saveProfile, hne, ih h1.2]

/-- Upserting an id already present keeps the id list unchanged. -/
lemma profileIds_saveProfile (q : Profile) :
    ∀ ps : List Profile, q.id ∈ profileIds ps →
      profileIds (secureStore.saveProfile ps q) = profileIds ps := by
  intro ps
  induction ps with
  | nil => intro h; simp [profileIds] at h
  | cons a t ih =>
    intro h
    by_cases ha : (a.id == q.id) = true
    · rw [show secureStore.saveProfile (a :: t) q = q :: t from by
        simp [secureStore.saveProfile, ha]]
      simp [profileIds, eq_of_beq ha]
    · have hmem : q.id ∈ profileIds t := by
        rcases (by simpa [profileIds] using h : q.id = a.id ∨ q.id ∈ profileIds t) with
          he | hm
        · exact absurd (beq_iff_eq.mpr he.symm) ha
        · exact hm
      rw [show secureStore.saveProfile (a :: t) q =
          a :: secureStore.saveProfile t q from by
        simp [secureStore.saveProfile, ha]]
      have ht := ih hmem
      simp only [profileIds, List.map_cons] at ht ⊢
      rw [ht]

/-- Mapping an id-preserving function does not change the id list. -/
lemma profileIds_map (s : List Profile) (f : Profile → Profile)
    (hf : ∀ p, (f p).id = p.id) :
    profileIds (s.map f) = profileIds s := by
  induction s with
  | nil => rfl
  | cons a t ih =>
    simp only [profileIds, List.map_cons] at ih ⊢
    rw [hf a, ih]

/-- Saving each element of an id-preserving map back into the store, one at a
time, amounts to replacing the whole store by the mapped list (the shape of
the `for (const p of profiles) saveProfile(p)` loops). -/
lemma saveAll_map (f : Profile → Profile) (hf : ∀ p, (f p).id = p.id) :
    ∀ (s pre : List Profile), (profileIds (pre ++ s)).Nodup →
      profileService.saveAll (pre ++ s) (s.map f) = pre ++ s.map f := by
  intro s
  induction s with
  | nil =>
    intro pre _
    simp [profileService.saveAll]
  | cons p rest ih =>
    intro pre hnd
    have hid : (f p).id = p.id := hf p
    have hpre : p.id ∉ profileIds pre := by
      have hnd' : (profileIds pre ++ p.id :: profileIds rest).Nodup := by
        simpa [profileIds, List.map_append] using hnd
      intro hmem
      exact (List.nodup_append.mp hnd').2.2 hmem (List.mem_cons_self _ _)
    simp only [List.map_cons]
    show profileService.saveAll
        (secureStore.saveProfile (pre ++ p :: rest) (f p)) (rest.map f) = _
    rw [saveProfile_append_left pre (p :: rest) (f p) (by rw [hid]; exact hpre)]
    rw [show secureStore.saveProfile (p :: rest) (f p) = f p :: rest from by
      simp [secureStore.saveProfile, hid]]
    rw [show pre ++ f p :: rest = (pre ++ [f p]) ++ rest from by simp]
    rw [ih (pre ++ [f p]) (by
      simpa [profileIds, List.map_append, hid, List.append_assoc] using hnd)]
    simp

/-- The two unset-then-set loops collapse to one map over the store. -/
lemma saveAll_map_self (f : Profile → Profile) (hf : ∀ p, (f p).id = p.id)
    (s : List Profile) (h : (profileIds s).Nodup) :
    profileService.saveAll s (s.map f) = s.map f := by
  simpa using saveAll_map f hf s [] (by simpa using h)

/-- With duplicate-free ids, at most one profile matches a given id. -/
lemma countP_beq_le_one (s : List Profile) (i : Nat)
    (h : (profileIds s).Nodup) :
    s.countP (fun p => p.id == i) ≤ 1 := by
  have h1 : s.countP (fun p => p.id == i) = (profileIds s).count i := by
    simp only [profileIds, List.count, List.countP_map]
    rfl
  rw [h1]
  exact List.nodup_iff_count_le_one.mp h i

/-- Default count after a set-default pass. -/
lemma defaultCount_map_set (s : List Profile) (i : Nat) :
    defaultCount (s.map (fun p => { p with isDefault := p.id == i })) =
      s.countP (fun p => p.id == i) := by
  simp only [defaultCount, List.countP_map]
  rfl

/-- Default count after an unset-all pass. -/
lemma defaultCount_map_unset (s : List Profile) :
    defaultCount (s.map (fun p => { p with isDefault := false })) = 0 := by
  induction s with
  | nil => rfl
  | cons a t ih => simp [defaultCount, List.countP_cons, ih]

/-- Finding by id commutes with an id-preserving map. -/
lemma find?_map_id_pres (s : List Profile) (f : Profile → Profile)
    (hf : ∀ p, (f p).id = p.id) (i : Nat) (e : Profile)
    (h : s.find? (fun p => p.id == i) = some e) :
    (s.map f).find? (fun p => p.id == i) = some (f e) := by
  induction s with
  | nil => simp at h
  | cons a t ih =>
    by_cases ha : (a.id == i) = true
    · rw [List.find?_cons, ha] at h
      have hae : a = e := by simpa using h
      subst hae
      have hfa : ((f a).id == i) = true := by rw [hf a]; exact ha
      rw [List.map_cons, List.find?_cons, hfa]
    · have ha' : (a.id == i) = false := by simpa using ha
      rw [List.find?_cons, ha'] at h
      have hfa : ((f a).id == i) = false := by rw [hf a]; exact ha'
      rw [List.map_cons, List.find?_cons, hfa]
      exact ih h

/-- Replacing the profile that holds an id cannot increase the default count
when the replacement is default only if the replaced one was. -/
lemma defaultCount_saveProfile_le (s : List Profile) (q : Profile) (i : Nat)
    (e : Profile) (hqi : q.id = i)
    (hfind : s.find? (fun p => p.id == i) = some e)
    (himp : q.isDefault = true → e.isDefault = true) :
    defaultCount (secureStore.saveProfile s q) ≤ defaultCount s := by
  subst hqi
  induction s with
  | nil => simp at hfind
  | cons a t ih =>
    by_cases ha : (a.id == q.id) = true
    · rw [List.find?_cons, ha] at hfind
      have hae : a = e := by simpa using hfind
      subst hae
      rw [show secureStore.saveProfile (a :: t) q = q :: t from by
        simp [secureStore.saveProfile, ha]]
      simp only [defaultCount, List.countP_cons]
      have hbit : (if q.isDefault = true then 1 else 0) ≤
          (if a.isDefault = true then 1 else 0) := by
        by_cases hq : q.isDefault = true
        · simp [hq, himp hq]
        · simp [hq]
      simp only [decide_eq_true_eq] at hbit ⊢
      omega
    · have ha' : (a.id == q.id) = false := by simpa using ha
      rw [List.find?_cons, ha'] at hfind
      rw [show secureStore.saveProfile (a :: t) q =
          a :: secureStore.saveProfile t q from by
        simp [secureStore.saveProfile, ha']]
      have := ih hfind
      simp only [defaultCount, List.countP_cons] at this ⊢
      omega

/-- Appending a profile with the fresh id preserves the invariant whenever
the combined default count stays at most one. -/
lemma storeInv_append_fresh (s : List Profile) (nId : Nat) (q : Profile)
    (hq : q.id = nId)
    (hb : ∀ i ∈ profileIds s, i < nId)
    (hn : (profileIds s).Nodup)
    (hc : defaultCount s + (if q.isDefault = true then 1 else 0) ≤ 1) :
    StoreInv { profiles := s ++ [q], nextId := nId + 1 } := by
  refine ⟨?_, ?_, ?_⟩
  · intro i hi
    rcases (by simpa [profileIds, List.map_append, hq] using hi :
        i ∈ profileIds s ∨ i = nId) with hm | he
    · exact Nat.lt_succ_of_lt (hb i hm)
    · rw [he]; exact Nat.lt_succ_self _
  · rw [show profileIds (s ++ [q]) = profileIds s ++ [nId] from by
      simp [profileIds, List.map_append, hq]]
    rw [List.nodup_append]
    refine ⟨hn, List.nodup_singleton _, ?_⟩
    intro a ha hb2
    simp only [List.mem_singleton] at hb2
    rw [hb2] at ha
    exact absurd (hb _ ha) (lt_irrefl nId)
  · show defaultCount (s ++ [q]) ≤ 1
    simp only [defaultCount, List.countP_append] at hc ⊢
    have hone : List.countP (fun p => p.isDefault) [q] =
        (if q.isDefault = true then 1 else 0) := by
      by_cases hqd : q.isDefault = true <;> simp [List.countP_cons, hqd]
    rw [hone]
    exact hc

/-- Upserting over an existing id preserves the invariant whenever the
replacement is default only if the replaced profile was. -/
lemma storeInv_save_existing (s : List Profile) (nId : Nat) (q : Profile)
    (i : Nat) (e : Profile) (hqi : q.id = i)
    (hfind : s.find? (fun p => p.id == i) = some e)
    (himp : q.isDefault = true → e.isDefault = true)
    (hb : ∀ j ∈ profileIds s, j < nId)
    (hn : (profileIds s).Nodup)
    (hc : defaultCount s ≤ 1) :
    StoreInv { profiles := secureStore.saveProfile s q, nextId := nId } := by
  have hmem : q.id ∈ profileIds s := by
    rw [hqi]
    have he := List.mem_of_find?_eq_some hfind
    have hei : e.id = i := eq_of_beq (by simpa using List.find?_some hfind)
    rw [← hei]
    exact List.mem_map_of_mem _ he
  refine ⟨?_, ?_, ?_⟩
  · intro j hj
    rw [profileIds_saveProfile q s hmem] at hj
    exact hb j hj
  · rw [profileIds_saveProfile q s hmem]
    exact hn
  · exact le_trans (defaultCount_saveProfile_le s q i e hqi hfind himp) hc

/-- Upserting a fresh id preserves the invariant whenever the combined
default count stays at most one. -/
lemma storeInv_saveProfile_fresh (s : List Profile) (nId : Nat) (q : Profile)
    (hq : q.id = nId)
    (hb : ∀ i ∈ profileIds s, i < nId)
    (hn : (profileIds s).Nodup)
    (hc : defaultCount s + (if q.isDefault = true then 1 else 0) ≤ 1) :
    StoreInv { profiles := secureStore.saveProfile s q, nextId := nId + 1 } := by
  rw [saveProfile_not_mem s q (by
    rw [hq]
    intro hmem
    exact absurd (hb _ hmem) (lt_irrefl nId))]
  exact storeInv_append_fresh s nId q hq hb hn hc

/-- Every profile operation preserves the store invariant. -/
lemma storeInv_applyOp (st : ProfileStore) (op : ProfileOp)
    (h : StoreInv st) : StoreInv (applyOp st op) := by
  obtain ⟨hbound, hnodup, hcount⟩ := h
  cases op with
  | create input now =>
    simp only [applyOp, profileService.create]
    by_cases hd : (input.isDefault.getD false || st.profiles.isEmpty) = true
    · rw [if_pos hd, saveAll_map_self (fun p => { p with isDefault := false })
        (fun p => rfl) st.profiles hnodup]
      refine storeInv_saveProfile_fresh _ _ _ rfl ?_ ?_ ?_
      · intro i hi
        rw [profileIds_map st.profiles (fun p => { p with isDefault := false })
          (fun p => rfl)] at hi
        exact hbound i hi
      · rw [profileIds_map st.profiles (fun p => { p with isDefault := false })
          (fun p => rfl)]
        exact hnodup
      · rw [defaultCount_map_unset]
        split <;> simp
    · rw [if_neg hd]
      refine storeInv_saveProfile_fresh _ _ _ rfl hbound hnodup ?_
      have hdf : (input.isDefault.getD false || st.profiles.isEmpty) = false := by
        simpa using hd
      simpa [hdf] using hcount
  | update input now =>
    simp only [applyOp, profileService.update]
    split
    · exact ⟨hbound, hnodup, hcount⟩
    · next existing hfind =>
      have hfind' : st.profiles.find? (fun p => p.id == input.id) = some existing := by
        simpa [secureStore.getProfile] using hfind
      have hexid : existing.id = input.id :=
        eq_of_beq (by simpa using List.find?_some hfind')
      by_cases hA : (input.isDefault == some true && !existing.isDefault) = true
      · rw [if_pos hA, saveAll_map_self
          (fun p => { p with isDefault := p.id == input.id }) (fun p => rfl)
          st.profiles hnodup]
        refine storeInv_save_existing _ _ _ input.id
          { existing with isDefault := existing.id == input.id } hexid ?_ ?_ ?_ ?_ ?_
        · exact find?_map_id_pres st.profiles
            (fun p => { p with isDefault := p.id == input.id }) (fun p => rfl)
            input.id existing hfind'
        · exact fun _ => beq_iff_eq.mpr hexid
        · intro j hj
          rw [profileIds_map st.profiles
            (fun p => { p with isDefault := p.id == input.id }) (fun p => rfl)] at hj
          exact hbound j hj
        · rw [profileIds_map st.profiles
            (fun p => { p with isDefault := p.id == input.id }) (fun p => rfl)]
          exact hnodup
        · rw [defaultCount_map_set]
          exact countP_beq_le_one _ _ hnodup
      · rw [if_neg hA]
        refine storeInv_save_existing _ _ _ input.id existing hexid hfind' ?_
          hbound hnodup hcount
        intro hu
        have hu' : input.isDefault.getD existing.isDefault = true := hu
        cases hin : input.isDefault with
        | none =>
          rw [hin] at hu'
          simpa using hu'
        | some b =>
          cases b with
          | true =>
            by_contra hex
            have hf : existing.isDefault = false := by
              cases hbool : existing.isDefault
              · rfl
              · exact absurd hbool hex
            exact hA (by rw [hin]; simp [hf])
          | false =>
            rw [hin] at hu'
            simp at hu'
  | delete id =>
    simp only [applyOp, profileService.delete]
    have hsub : (profileIds (secureStore.deleteProfile st.profiles id)).Sublist
        (profileIds st.profiles) :=
      List.Sublist.map _ (List.filter_sublist _)
    have hnd' : (profileIds (secureStore.deleteProfile st.profiles id)).Nodup :=
      hnodup.sublist hsub
    have hbound' : ∀ i ∈ profileIds (secureStore.deleteProfile st.profiles id),
        i < st.nextId := fun i hi => hbound i (hsub.subset hi)
    have hcount' : defaultCount (secureStore.deleteProfile st.profiles id) ≤ 1 :=
      le_trans (List.Sublist.countP_le _ (List.filter_sublist _)) hcount
    split
    · exact ⟨hbound, hnodup, hcount⟩
    · next profile hfind =>
      by_cases hpd : profile.isDefault = true
      · rw [if_pos hpd]
        split
        · next first hrem =>
          simp only [profileService.setDefault]
          split
          · exact ⟨hbound', hnd', hcount'⟩
          · next pf hg =>
            refine ⟨?_, ?_, ?_⟩
            · intro i hi
              rw [show profileIds (secureStore.setDefaultProfile
                  (secureStore.deleteProfile st.profiles id) first.id) =
                  profileIds (secureStore.deleteProfile st.profiles id) from
                profileIds_map _ _ (fun p => rfl)] at hi
              exact hbound' i hi
            · rw [show profileIds (secureStore.setDefaultProfile
                  (secureStore.deleteProfile st.profiles id) first.id) =
                  profileIds (secureStore.deleteProfile st.profiles id) from
                profileIds_map _ _ (fun p => rfl)]
              exact hnd'
            · rw [show defaultCount (secureStore.setDefaultProfile
                  (secureStore.deleteProfile st.profiles id) first.id) =
                  (secureStore.deleteProfile st.profiles id).countP
                    (fun p => p.id == first.id) from defaultCount_map_set _ _]
              exact countP_beq_le_one _ _ hnd'
        · exact ⟨hbound', hnd', hcount'⟩
      · rw [if_neg hpd]
        exact ⟨hbound', hnd', hcount'⟩
  | setDefault id =>
    simp only [applyOp, profileService.setDefault]
    split
    · exact ⟨hbound, hnodup, hcount⟩
    · next profile hfind =>
      refine ⟨?_, ?_, ?_⟩
      · intro i hi
        rw [show profileIds (secureStore.setDefaultProfile st.profiles id) =
            profileIds st.profiles from profileIds_map _ _ (fun p => rfl)] at hi
        exact hbound i hi
      · rw [show profileIds (secureStore.setDefaultProfile st.profiles id) =
            profileIds st.profiles from profileIds_map _ _ (fun p => rfl)]
        exact hnodup
      · rw [show defaultCount (secureStore.setDefaultProfile st.profiles id) =
            st.profiles.countP (fun p => p.id == id) from defaultCount_map_set _ _]
        exact countP_beq_le_one _ _ hnodup

/-- C1 (amended): after any sequence of create, update, delete and
setDefault operations from the empty store, AT MOST one stored profile has
`isDefault = true`.  ("Exactly one whenever the store is non-empty" fails:
see the counterexample, where an update with `isDefault: false` strips the
only default without electing another.) -/
theorem profile_at_most_one_default (ops : List ProfileOp) :
    defaultCount (runOps ops).profiles ≤ 1 := by
  have hinv : StoreInv (runOps ops) := by
    unfold runOps
    have hstep : ∀ (l : List ProfileOp) (s : ProfileStore), StoreInv s →
        StoreInv (l.foldl applyOp s) := by
      intro l
      induction l with
      | nil => intro s hs; exact hs
      | cons o t ih =>
        intro s hs
        exact ih (applyOp s o) (storeInv_applyOp s o hs)
    exact hstep ops { profiles := [], nextId := 0 } ⟨by simp [profileIds], by
      simp [profileIds], by simp [defaultCount]⟩
  exact hinv.2.2

end GitSwitch
